import Mathlib

/-!
Verification development for the gmux session/state model (src/main.c).

The shallow embedding below translates the session store, the
project/subtab lifecycle operations, the sidebar sort comparators and the
gesture-driven tab-reorder controller of `src/main.c` into pure Lean
definitions.  Widget-toolkit effects (CSS classes, widget mounting,
terminal spawning) are recorded as explicit events in the state:
`spawn_log` records each `vte_terminal_spawn_async` request issued by
`create_subtab`, `saves` counts `save_session` calls, `freed_ids` records
`g_free`d subtabs, and `closing_ids` records subtabs whose `closing` guard
flag has been set.  Pointers are modelled as list indices (for projects)
and as unique numeric ids (for subtabs), mirroring GLib pointer-identity
semantics of `g_list_index`, `g_list_find` and `g_list_remove`.
-/

namespace Gmux

/-- JSON documents, as produced by json-glib's `JsonBuilder` in
`save_session` and consumed by `JsonParser` in `load_session`.
An object is a list of key/value members in insertion order. -/
inductive Json where
| jnull : Json
| jbool : Bool → Json
| jint : Int → Json
| jstr : String → Json
| jarr : List Json → Json
| jobj : List (String × Json) → Json
deriving Repr, Inhabited

/-- First member with the given key, as `json_object_get_member`. -/
def getMember : List (String × Json) → String → Option Json
| [], _ => none
| (k, v) :: rest, key => if k = key then some v else getMember rest key

/-- `json_object_has_member`. -/
def hasMember (fields : List (String × Json)) (key : String) : Bool :=
  (getMember fields key).isSome

/-- `json_object_get_string_member`: NULL (with a warning) when the member
is missing or not a string. -/
def getStringMember (fields : List (String × Json)) (key : String) : Option String :=
  match getMember fields key with
  | some (Json.jstr s) => some s
  | _ => none

/-- `json_object_get_int_member`: 0 when the member is missing or not an
integer value. -/
def getIntMember (fields : List (String × Json)) (key : String) : Int :=
  match getMember fields key with
  | some (Json.jint n) => n
  | _ => 0

/-- `json_object_get_array_member` followed by `json_array_get_length` /
element access: a missing or non-array member behaves as an empty array
(json-glib returns NULL and `json_array_get_length(NULL)` is 0). -/
def getArrayMember (fields : List (String × Json)) (key : String) : List Json :=
  match getMember fields key with
  | some (Json.jarr xs) => xs
  | _ => []

/-- `json_array_get_object_element` / `JSON_NODE_HOLDS_OBJECT`. -/
def getObjectElement : Json → Option (List (String × Json))
| Json.jobj fields => some fields
| _ => none

/-- The tri-state sort mode enum of `main.c`. -/
inductive SortMode where
| SORT_NONE : SortMode
| SORT_ALPHA : SortMode
| SORT_MRU : SortMode
deriving Repr, DecidableEq, Inhabited

/-- Pending-restore subtab descriptor (`SavedSubTab` in `main.c`). -/
structure SavedSubTab where
  name : String
  working_dir : String
deriving Repr, DecidableEq

/-- A live subtab (`struct _SubTab`).  `id` models the heap pointer
identity; `terminal_cwd` models the answer of
`vte_terminal_get_current_directory_uri` converted by
`g_filename_from_uri` (`none` when either step yields NULL).  The
`closing` guard flag is kept in the application-level `closing_ids`
ledger so that it remains readable, as in C, after the struct is freed. -/
structure SubTab where
  id : Nat
  name : String
  terminal_cwd : Option String
deriving Repr, DecidableEq

/-- A project (`struct _Project`).  Widget fields are omitted;
`spawn_requests` counts the `create_subtab` calls made for this project
(each such call issues exactly one `vte_terminal_spawn_async`). -/
structure Project where
  name : String
  path : String
  subtabs : List SubTab
  active_subtab : Option Nat
  subtab_counter : Int
  initialized : Bool
  last_used : Int
  insert_order : Int
  saved_subtabs : List SavedSubTab
  saved_active_subtab : Int
  spawn_requests : Nat
deriving Repr, DecidableEq

/-- The application state (`AppState` in `main.c`).  `active_project` is
the index of the project the active-project pointer refers to;
`spawn_log` records the working directory of every
`vte_terminal_spawn_async` request in order; `saves` counts
`save_session` calls; `closing_ids` and `freed_ids` are the ledgers of
subtab ids whose `closing` flag was set, resp. that were `g_free`d. -/
structure AppState where
  projects : List Project
  active_project : Option Nat
  sort_mode : SortMode
  next_id : Nat
  spawn_log : List String
  saves : Nat
  closing_ids : List Nat
  freed_ids : List Nat
deriving Repr, DecidableEq

/-- A freshly started application: `AppState` is zero-initialized in
`activate` before `load_session` runs. -/
def fresh_app : AppState :=
  { projects := [], active_project := none, sort_mode := SortMode.SORT_NONE,
    next_id := 0, spawn_log := [], saves := 0, closing_ids := [], freed_ids := [] }

/-- Working directory serialized for a live subtab by `save_session`:
the terminal-reported directory when available, else the project path. -/
def cwd_of (st : SubTab) (p : Project) : String :=
  match st.terminal_cwd with
  | some c => c
  | none => p.path

/-- `g_list_index(project->subtabs, project->active_subtab)` clamped to 0
as in `save_session` (index stays 0 when there is no active subtab or the
pointer is not in the list). -/
def active_sub_idx (p : Project) : Int :=
  match p.active_subtab with
  | some sid =>
    match p.subtabs.findIdx? (fun st => st.id == sid) with
    | some k => (k : Int)
    | none => 0
  | none => 0

/-- The members of the per-project JSON object written by
`save_session`, in emission order. -/
def save_project_fields (p : Project) : List (String × Json) :=
  [("name", Json.jstr p.name), ("path", Json.jstr p.path),
   ("last_used", Json.jint p.last_used)] ++
  (if p.initialized then
     [("active_subtab_index", Json.jint (active_sub_idx p)),
      ("subtabs", Json.jarr (p.subtabs.map (fun st =>
         Json.jobj [("name", Json.jstr st.name),
                    ("working_dir", Json.jstr (cwd_of st p))])))]
   else if p.saved_subtabs ≠ [] then
     [("active_subtab_index", Json.jint p.saved_active_subtab),
      ("subtabs", Json.jarr (p.saved_subtabs.map (fun s =>
         Json.jobj [("name", Json.jstr s.name),
                    ("working_dir", Json.jstr s.working_dir)])))]
   else
     [("active_subtab_index", Json.jint 0), ("subtabs", Json.jarr [])])

/-- The per-project JSON object written by `save_session`. -/
def save_project (p : Project) : Json :=
  Json.jobj (save_project_fields p)

/-- The string emitted by `save_session` for each sort mode. -/
def sort_mode_string : SortMode → String
| SortMode.SORT_ALPHA => "alpha"
| SortMode.SORT_MRU => "mru"
| SortMode.SORT_NONE => "none"

/-- `active_idx` computed at the top of `save_session`: the position of
the active-project pointer, or 0 when there is none (or it is not in the
list, in which case `g_list_index` returns -1 and the initial 0 stays). -/
def saved_active_index (app : AppState) : Int :=
  match app.active_project with
  | some i => if i < app.projects.length then (i : Int) else 0
  | none => 0

/-- The full session document written by `save_session`. -/
def save_session_doc (app : AppState) : Json :=
  Json.jobj
    [("active_project_index", Json.jint (saved_active_index app)),
     ("sort_mode", Json.jstr (sort_mode_string app.sort_mode)),
     ("projects", Json.jarr (app.projects.map save_project))]

/-- Parsing of the `sort_mode` member in `load_session` (`g_strcmp0`
against "alpha" and "mru", defaulting to `SORT_NONE`). -/
def parse_sort_mode : Option String → SortMode
| some s =>
  if s = "alpha" then SortMode.SORT_ALPHA
  else if s = "mru" then SortMode.SORT_MRU
  else SortMode.SORT_NONE
| none => SortMode.SORT_NONE

/-- Replace the element at one position of a list (identity out of
range); models an in-place mutation through a project pointer. -/
def update_nth {α : Type} : List α → Nat → (α → α) → List α
| [], _, _ => []
| p :: rest, 0, f => f p :: rest
| p :: rest, n + 1, f => p :: update_nth rest n f

/-- `create_subtab(project, name, working_dir)`: allocates a subtab,
issues one `vte_terminal_spawn_async` request for `working_dir`, appends
the subtab to the project's list and makes it active (via the
`on_subtab_button_clicked` call at the end of `create_subtab`). -/
def create_subtab (app : AppState) (i : Nat) (name working_dir : String) : AppState :=
  let sid := app.next_id
  { app with
    next_id := sid + 1,
    spawn_log := app.spawn_log ++ [working_dir],
    projects := update_nth app.projects i (fun p =>
      { p with subtabs := p.subtabs ++ [⟨sid, name, none⟩],
               active_subtab := some sid,
               spawn_requests := p.spawn_requests + 1 }) }

/-- The zero-initialized project allocated by `create_project`
(`g_new0`), its `insert_order` taken from the current collection
length. -/
def fresh_project (k : Int) (name path : String) : Project :=
  { name := name, path := path, subtabs := [], active_subtab := none,
    subtab_counter := 0, initialized := false, last_used := 0,
    insert_order := k, saved_subtabs := [], saved_active_subtab := 0,
    spawn_requests := 0 }

/-- The first half of `create_project`: allocate the project (with
`insert_order` = current collection length), append it and make it the
active project. -/
def append_project (app : AppState) (name path : String) : AppState :=
  { app with projects := app.projects ++ [fresh_project (app.projects.length : Int) name path],
             active_project := some app.projects.length }

/-- The `project->subtab_counter = 1; project->initialized = TRUE;`
lines shared by `create_project`, `on_add_subtab_clicked`,
`on_sidebar_add_subtab_clicked` and `on_project_selected` right after a
first default subtab is created. -/
def mark_first_tab (app : AppState) (i : Nat) : AppState :=
  { app with projects := update_nth app.projects i (fun p =>
      { p with subtab_counter := 1, initialized := true }) }

/-- `on_subtab_button_clicked`: makes the clicked subtab the visible and
active one (stack switching and CSS are toolkit effects). -/
def on_subtab_button_clicked (app : AppState) (i : Nat) (sid : Nat) : AppState :=
  { app with projects := update_nth app.projects i (fun p =>
      { p with active_subtab := some sid }) }

/-- The restore loop of `on_project_selected`: one `create_subtab` per
pending descriptor, in order. -/
def restore_saved (i : Nat) : AppState → List SavedSubTab → AppState
| app, [] => app
| app, s :: rest => restore_saved i (create_subtab app i s.name s.working_dir) rest

/-- The `app->active_project = project; project->last_used =
g_get_real_time();` lines of `on_project_selected`. -/
def bump_last_used (app : AppState) (i : Nat) (now : Int) : AppState :=
  { app with active_project := some i,
             projects := update_nth app.projects i (fun p =>
               { p with last_used := now }) }

/-- `project->subtab_counter = (int)g_list_length(project->saved_subtabs)`. -/
def set_restored_counter (app : AppState) (i : Nat) (n : Int) : AppState :=
  { app with projects := update_nth app.projects i (fun q =>
      { q with subtab_counter := n }) }

/-- The `g_list_nth(project->subtabs, project->saved_active_subtab)`
activation: valid index (after the int-to-guint cast) activates that
subtab, otherwise nothing happens. -/
def activate_saved_index (app : AppState) (i : Nat) (sas : Int) : AppState :=
  match app.projects[i]? with
  | none => app
  | some q =>
    if 0 ≤ sas ∧ sas.toNat < q.subtabs.length then
      match q.subtabs[sas.toNat]? with
      | some st => on_subtab_button_clicked app i st.id
      | none => app
    else app

/-- `free_saved_subtabs` + `project->initialized = TRUE` at the end of
the restore branch. -/
def finish_restore (app : AppState) (i : Nat) : AppState :=
  { app with projects := update_nth app.projects i (fun q =>
      { q with saved_subtabs := [], initialized := true }) }

/-- The pending-descriptor branch of `on_project_selected`: one live
subtab per descriptor, counter set to the descriptor count, the saved
index activated, the descriptors freed and the project initialized. -/
def materialize_saved (app1 : AppState) (i : Nat) (p : Project) : AppState :=
  finish_restore
    (activate_saved_index
      (set_restored_counter (restore_saved i app1 p.saved_subtabs) i
        (p.saved_subtabs.length : Int))
      i p.saved_active_subtab) i

/-- `on_project_selected` on the row of project `i` at time `now`
(`g_get_real_time`): make it the active project, bump `last_used`, and
lazily materialize it if uninitialized — from its pending descriptors
when it has any (then activate the saved index and discard them),
otherwise with a single default "Tab 1". -/
def on_project_selected (app : AppState) (i : Nat) (now : Int) : AppState :=
  match app.projects[i]? with
  | none => app
  | some _ =>
    match (bump_last_used app i now).projects[i]? with
    | none => bump_last_used app i now
    | some p =>
      if ¬p.initialized then
        if p.saved_subtabs ≠ [] then
          materialize_saved (bump_last_used app i now) i p
        else
          mark_first_tab (create_subtab (bump_last_used app i now) i "Tab 1" p.path) i
      else bump_last_used app i now

/-- `create_project(app, name, path, init_terminal)` at time `now`
(`g_get_real_time`).  With `init_terminal` the first "Tab 1" subtab is
created and the project marked initialized, and then its sidebar row is
selected: `gtk_list_box_select_row` emits `::row-selected`
synchronously, so `on_project_selected` runs on the new project inside
`create_project` (the handler was connected in `activate` before any
project exists).  Without `init_terminal` no row is selected — the
load path handles selection after all projects are loaded — so `now`
is unused. -/
def create_project (app : AppState) (name path : String) (init_terminal : Bool)
    (now : Int) : AppState :=
  if init_terminal then
    on_project_selected
      (mark_first_tab
        (create_subtab (append_project app name path) app.projects.length "Tab 1" path)
        app.projects.length)
      app.projects.length now
  else append_project app name path

/-- The `last_used` read of the restore loop. -/
def attach_last_used (fields : List (String × Json)) (p : Project) : Project :=
  if hasMember fields "last_used" then
    { p with last_used := getIntMember fields "last_used" }
  else p

/-- The pending descriptors parsed from a `subtabs` member: one per
well-formed object element, with the documented name/working-directory
fallbacks. -/
def parsed_saved_subtabs (path : String) (fields : List (String × Json)) : List SavedSubTab :=
  (getArrayMember fields "subtabs").filterMap (fun j =>
    match getObjectElement j with
    | none => none
    | some sf =>
      some (SavedSubTab.mk ((getStringMember sf "name").getD "Tab")
                           ((getStringMember sf "working_dir").getD path)))

/-- The per-project restore step of `load_session`: set `last_used` if
present, then (when a `subtabs` member exists) attach one pending-restore
descriptor per well-formed array element and read
`active_subtab_index`. -/
def attach_restore_data (path : String) (fields : List (String × Json)) (p : Project) : Project :=
  if hasMember fields "subtabs" then
    { attach_last_used fields p with
      saved_subtabs := (attach_last_used fields p).saved_subtabs ++
        parsed_saved_subtabs path fields,
      saved_active_subtab :=
        if hasMember fields "active_subtab_index" then
          getIntMember fields "active_subtab_index" else 0 }
  else attach_last_used fields p

/-- One valid entry of the project-array loop of `load_session`:
`create_project(app, name, path, FALSE)` followed by the restore-data
mutations on the just-created project (the last element). -/
def load_one (app : AppState) (fields : List (String × Json)) (name path : String) : AppState :=
  { create_project app name path false 0 with
    projects := update_nth (create_project app name path false 0).projects
      ((create_project app name path false 0).projects.length - 1)
      (attach_restore_data path fields) }

/-- The project-array loop of `load_session`: skip non-object entries and
entries lacking a string `name` or `path`; otherwise create an
uninitialized project (no terminal spawned) and attach its restore
data. -/
def load_projects (app : AppState) : List Json → AppState
| [] => app
| j :: rest =>
  match getObjectElement j with
  | none => load_projects app rest
  | some fields =>
    match getStringMember fields "name", getStringMember fields "path" with
    | some name, some path => load_projects (load_one app fields name path) rest
    | _, _ => load_projects app rest

/-- The `sort_mode` member parse at the top of `load_session`. -/
def set_loaded_sort_mode (app : AppState) (root_fields : List (String × Json)) : AppState :=
  if hasMember root_fields "sort_mode" then
    { app with sort_mode := parse_sort_mode (getStringMember root_fields "sort_mode") }
  else app

/-- The `active_project_index` read near the top of the parse path. -/
def loaded_active_index (root_fields : List (String × Json)) : Int :=
  if hasMember root_fields "active_project_index" then
    getIntMember root_fields "active_project_index"
  else 0

/-- The final `g_list_nth`-guarded selection of the active project: the
int-to-guint cast makes a negative index select nothing.  On a valid
index the `app->active_project` assignment is followed by
`gtk_list_box_select_row`, whose synchronous `::row-selected` emission
runs `on_project_selected` on that project (activating — and thereby
spawning — it during the load). -/
def select_loaded_active (app : AppState) (idx : Int) (now : Int) : AppState :=
  if 0 ≤ idx ∧ idx.toNat < app.projects.length then
    on_project_selected { app with active_project := some idx.toNat } idx.toNat now
  else app

/-- `load_session` on an existing session file.  `root = none` models a
file `json_parser_load_from_file` fails to parse; `some r` is the parsed
root node.  (The legacy `projects.conf` migration path, taken only when
no session file exists, is outside this model.) -/
def load_session (root : Option Json) (app : AppState) (now : Int) : AppState :=
  match root with
  | none => app
  | some r =>
    match getObjectElement r with
    | none => app
    | some root_fields =>
      if hasMember root_fields "projects" then
        select_loaded_active
          (load_projects (set_loaded_sort_mode app root_fields)
            (getArrayMember root_fields "projects"))
          (loaded_active_index root_fields) now
      else set_loaded_sort_mode app root_fields

/-- `g_list_find` on the subtab list by pointer identity. -/
def find_subtab (p : Project) (sid : Nat) : Option SubTab :=
  p.subtabs.find? (fun st => st.id == sid)

/-- `g_list_remove`: drop the first (unique) node holding this pointer. -/
def remove_first_subtab : List SubTab → Nat → List SubTab
| [], _ => []
| st :: rest, sid => if st.id = sid then rest else st :: remove_first_subtab rest sid

/-- `link->next ? link->next : link->prev` on the subtab list: the id of
the adjacent subtab activated before removal, if any. -/
def adjacent_subtab (subtabs : List SubTab) (sid : Nat) : Option Nat :=
  match subtabs.findIdx? (fun st => st.id == sid) with
  | none => none
  | some k =>
    match subtabs[k + 1]? with
    | some st => some st.id
    | none =>
      if k = 0 then none
      else
        match subtabs[k - 1]? with
        | some st => some st.id
        | none => none

/-- Adjacent-activation step of `close_subtab`: when the closing subtab
is the active one and is not the last, activate its next (else previous)
neighbor first. -/
def close_step_adjacent (p : Project) (sid : Nat) : Project :=
  if p.active_subtab = some sid ∧ ¬(p.subtabs.length = 1) then
    match adjacent_subtab p.subtabs sid with
    | some nid => { p with active_subtab := some nid }
    | none => p
  else p

/-- Removal step of `close_subtab` (`g_list_remove`). -/
def close_step_remove (p : Project) (sid : Nat) : Project :=
  { p with subtabs := remove_first_subtab p.subtabs sid }

/-- The "clear active if it was the closed subtab" step. -/
def close_step_clear_active (p : Project) (sid : Nat) : Project :=
  if p.active_subtab = some sid then { p with active_subtab := none } else p

/-- The "revert to uninitialized when the last subtab closed" step. -/
def close_step_uninit (p : Project) (was_last : Bool) : Project :=
  if was_last then { p with initialized := false } else p

/-- The project after the body of `close_subtab` ran on subtab `sid`
(`was_last` is computed from the list before removal). -/
def closed_project (p : Project) (sid : Nat) : Project :=
  close_step_uninit
    (close_step_clear_active (close_step_remove (close_step_adjacent p sid) sid) sid)
    (p.subtabs.length == 1)

/-- `close_subtab(subtab)` where `subtab` is the subtab with id `sid` of
project `i` (`subtab->parent_tab`).  The leading test of the `closing`
flag makes a second close a no-op; otherwise the flag is set, an adjacent
subtab is activated first when the active one closes and others remain,
the subtab is removed and freed, the project reverts to uninitialized
when it was the last subtab, and the session is saved once.  (The
`i`/`sid` arguments stand for the subtab pointer: a live subtab is found
in its parent project's list, so the unreachable lookup failures are
no-ops.) -/
def close_subtab (app : AppState) (i : Nat) (sid : Nat) : AppState :=
  if sid ∈ app.closing_ids then app
  else
    match app.projects[i]? with
    | none => app
    | some p =>
      if (find_subtab p sid).isNone then app
      else
        { app with
          projects := update_nth app.projects i (fun _ => closed_project p sid),
          closing_ids := app.closing_ids ++ [sid],
          freed_ids := app.freed_ids ++ [sid],
          saves := app.saves + 1 }

/-- `on_terminal_child_exited`: a subtab already in the closing state is
left alone; otherwise the tab is auto-closed exactly like a user close. -/
def on_terminal_child_exited (app : AppState) (i : Nat) (sid : Nat) : AppState :=
  if sid ∈ app.closing_ids then app
  else close_subtab app i sid

/-- `free_saved_subtabs(project)`: drop the pending descriptors. -/
def clear_saved (app : AppState) (i : Nat) : AppState :=
  { app with projects := update_nth app.projects i (fun q =>
      { q with saved_subtabs := [] }) }

/-- `project->subtab_counter++`. -/
def bump_counter (app : AppState) (i : Nat) : AppState :=
  { app with projects := update_nth app.projects i (fun q =>
      { q with subtab_counter := q.subtab_counter + 1 }) }

/-- `on_add_subtab_clicked` (and the textually identical
`on_sidebar_add_subtab_clicked`): first-time materialization with a
single default tab for an uninitialized project (discarding any pending
descriptors), else a new `Tab N` from the per-project counter. -/
def on_add_subtab_clicked (app : AppState) (i : Nat) : AppState :=
  match app.projects[i]? with
  | none => app
  | some p =>
    if ¬p.initialized then
      mark_first_tab (create_subtab (clear_saved app i) i "Tab 1" p.path) i
    else
      create_subtab (bump_counter app i) i ("Tab " ++ toString (p.subtab_counter + 1)) p.path

/-- Drop the element at one position (identity out of range). -/
def remove_nth {α : Type} : List α → Nat → List α
| [], _ => []
| _ :: rest, 0 => rest
| p :: rest, n + 1 => p :: remove_nth rest n

/-- `on_remove_project_clicked` at time `now`: a no-op without an
active project; otherwise frees all of the active project's subtabs,
removes it, saves, and — when projects remain — makes the first one
active and selects its sidebar row: the synchronous `::row-selected`
emission runs `on_project_selected` on it (materializing, and thereby
spawning, it when it is uninitialized). -/
def on_remove_project_clicked (app : AppState) (now : Int) : AppState :=
  match app.active_project with
  | none => app
  | some i =>
    match app.projects[i]? with
    | none => app
    | some p =>
      if (remove_nth app.projects i).isEmpty then
        { app with
          freed_ids := app.freed_ids ++ p.subtabs.map (fun st => SubTab.id st),
          projects := remove_nth app.projects i,
          saves := app.saves + 1,
          active_project := none }
      else
        on_project_selected
          { app with
            freed_ids := app.freed_ids ++ p.subtabs.map (fun st => SubTab.id st),
            projects := remove_nth app.projects i,
            saves := app.saves + 1,
            active_project := some 0 }
          0 now

/-- The NONE → ALPHA → MRU → NONE cycle of `on_sort_clicked`. -/
def cycled_mode : SortMode → SortMode
| SortMode.SORT_NONE => SortMode.SORT_ALPHA
| SortMode.SORT_ALPHA => SortMode.SORT_MRU
| SortMode.SORT_MRU => SortMode.SORT_NONE

/-- `on_sort_clicked`: cycle the mode, re-sort the sidebar (a derived
display projection, see the sort engine below), and save once. -/
def on_sort_clicked (app : AppState) : AppState :=
  { app with sort_mode := cycled_mode app.sort_mode,
             saves := app.saves + 1 }

/-- The state-mutating user/terminal events of the lifecycle manager. -/
inductive Op where
| opCreateProject (name path : String) (init_terminal : Bool) (now : Int) : Op
| opSelectProject (i : Nat) (now : Int) : Op
| opAddSubtab (i : Nat) : Op
| opCloseSubtab (i : Nat) (sid : Nat) : Op
| opChildExited (i : Nat) (sid : Nat) : Op
| opRemoveProject (now : Int) : Op
| opSortClicked : Op
deriving Repr, DecidableEq

/-- One completed event-handler run. -/
def step (app : AppState) : Op → AppState
| Op.opCreateProject name path init_terminal now => create_project app name path init_terminal now
| Op.opSelectProject i now => on_project_selected app i now
| Op.opAddSubtab i => on_add_subtab_clicked app i
| Op.opCloseSubtab i sid => close_subtab app i sid
| Op.opChildExited i sid => on_terminal_child_exited app i sid
| Op.opRemoveProject now => on_remove_project_clicked app now
| Op.opSortClicked => on_sort_clicked app

/-- Run a sequence of events. -/
def run (app : AppState) (ops : List Op) : AppState := ops.foldl step app

/-! ### Sort engine -/

/-- `g_ascii_tolower` on a byte value: shift ASCII upper-case letters
(65–90) to lower case, leave every other byte unchanged. -/
def g_ascii_tolower (n : Nat) : Nat :=
  if 65 ≤ n ∧ n ≤ 90 then n + 32 else n

/-- `g_ascii_tolower(*s)` at a C string position: the NUL terminator at
end of string reads as byte 0. -/
def cstr_head_lower : List Char → Int
| [] => 0
| c :: _ => (g_ascii_tolower c.toNat : Int)

/-- `g_ascii_strcasecmp`: walk both strings while neither is at NUL,
returning the first nonzero difference of lower-cased bytes, else the
difference of the bytes at the first terminator.  An embedded NUL byte
ends a C string, hence the explicit terminator test. -/
def g_ascii_strcasecmp : List Char → List Char → Int
| c1 :: t1, c2 :: t2 =>
  if c1.toNat = 0 ∨ c2.toNat = 0 then
    cstr_head_lower (c1 :: t1) - cstr_head_lower (c2 :: t2)
  else if g_ascii_tolower c1.toNat ≠ g_ascii_tolower c2.toNat then
    (g_ascii_tolower c1.toNat : Int) - (g_ascii_tolower c2.toNat : Int)
  else g_ascii_strcasecmp t1 t2
| l1, l2 => cstr_head_lower l1 - cstr_head_lower l2

/-- `sort_func_insertion`: manual order, ascending `insert_order`. -/
def sort_func_insertion (p1 p2 : Project) : Int :=
  p1.insert_order - p2.insert_order

/-- `sort_func_alpha`: case-insensitive ASCII comparison of names. -/
def sort_func_alpha (p1 p2 : Project) : Int :=
  g_ascii_strcasecmp p1.name.data p2.name.data

/-- `sort_func_mru`: descending `last_used`, most recent first. -/
def sort_func_mru (p1 p2 : Project) : Int :=
  if p2.last_used > p1.last_used then 1
  else if p2.last_used < p1.last_used then -1
  else 0

/-- The comparator `apply_sort` installs for each mode. -/
def sort_func (m : SortMode) : Project → Project → Int :=
  match m with
  | SortMode.SORT_ALPHA => sort_func_alpha
  | SortMode.SORT_MRU => sort_func_mru
  | SortMode.SORT_NONE => sort_func_insertion

/-- `apply_sort`: the sidebar display order after
`gtk_list_box_set_sort_func` + `gtk_list_box_invalidate_sort`.  The list
box (an external collaborator) re-ranks the rows with the installed
comparator; the comparison sort itself is modelled by insertion sort,
reading the rows in their current order. -/
def apply_sort (m : SortMode) (rows : List Project) : List Project :=
  List.insertionSort (fun a b => sort_func m a b ≤ 0) rows

/-! ### Tab reorder controller

The tab strip is a horizontal `GtkBox` with spacing 0: laid out left to
right, the bounds of the k-th child start at the summed widths of its
predecessors.  `order` is the current child order of `tabs_box` (subtab
ids), `width` gives each tab's fixed width, `subtabs` mirrors
`project->subtabs`, and the remaining fields model the `drag-tab`,
`drag-active`, `drag-start-x` object data, the `save_session` counter
and the `gmux-tab-dragging` CSS class. -/

structure DragState where
  order : List Nat
  width : Nat → ℚ
  subtabs : List Nat
  drag_tab : Option Nat
  drag_active : Bool
  drag_start_x : ℚ
  saves : Nat
  css_dragging : Bool

/-- Horizontal midpoint of tab `d` in the strip: its origin (sum of the
widths before it) plus half its width; `none` when `d` is not a child
(then `gtk_widget_compute_bounds` fails and the update does nothing). -/
def mid_of_aux (width : Nat → ℚ) (d : Nat) : List Nat → ℚ → Option ℚ
| [], _ => none
| c :: rest, pos =>
  if c = d then some (pos + width c / 2)
  else mid_of_aux width d rest (pos + width c)

/-- The scan of `on_tab_drag_update`: walk the children in strip order,
skip the dragged tab, and report the first midpoint crossing —
`(true, c)` for moving left past child `c`'s midpoint, `(false, c)` for
moving right past it. -/
def find_cross_aux (width : Nat → ℚ) (d : Nat) (dm cx : ℚ) :
    List Nat → ℚ → Option (Bool × Nat)
| [], _ => none
| c :: rest, pos =>
  if c = d then find_cross_aux width d dm cx rest (pos + width c)
  else
    let cm := pos + width c / 2
    if dm > cm ∧ cx < cm then some (true, c)
    else if dm < cm ∧ cx > cm then some (false, c)
    else find_cross_aux width d dm cx rest (pos + width c)

/-- Helper for `prev_sibling`: previous element seen so far. -/
def prev_sibling_go (prev : Nat) : List Nat → Nat → Option Nat
| [], _ => none
| c :: rest, t => if c = t then some prev else prev_sibling_go c rest t

/-- `gtk_widget_get_prev_sibling` within the strip. -/
def prev_sibling : List Nat → Nat → Option Nat
| [], _ => none
| c :: rest, t => if c = t then none else prev_sibling_go c rest t

/-- Drop the first occurrence of a tab id. -/
def erase_tab : List Nat → Nat → List Nat
| [], _ => []
| c :: rest, t => if c = t then rest else c :: erase_tab rest t

/-- Insert `x` immediately after the first occurrence of `a`. -/
def insert_after_tab : List Nat → Nat → Nat → List Nat
| [], _, x => [x]
| c :: rest, a, x => if c = a then c :: x :: rest else c :: insert_after_tab rest a x

/-- `gtk_box_reorder_child_after(box, x, anchor)`: detach `x` and
re-insert it right after `anchor`, or at the front when `anchor` is
NULL. -/
def reorder_child_after (l : List Nat) (x : Nat) (anchor : Option Nat) : List Nat :=
  match anchor with
  | none => x :: erase_tab l x
  | some a => insert_after_tab (erase_tab l x) a x

/-- Apply the reorder decided by the scan: moving left places the
dragged tab after the crossed child's previous sibling (a no-op when
that sibling is the dragged tab itself); moving right places it right
after the crossed child. -/
def apply_cross (order : List Nat) (d : Nat) : Option (Bool × Nat) → List Nat
| none => order
| some (true, c) =>
  (match prev_sibling order c with
   | some pv => if pv = d then order else reorder_child_after order d (some pv)
   | none => reorder_child_after order d none)
| some (false, c) => reorder_child_after order d (some c)

/-- `on_tab_drag_begin`: a press on a close control or outside any tab
is denied and arms nothing; otherwise the hit tab is armed with the
press abscissa recorded and `drag-active` false. -/
def on_tab_drag_begin (s : DragState) (close_hit : Bool) (picked : Option Nat)
    (start_x : ℚ) : DragState :=
  if close_hit then s
  else
    match picked with
    | none => s
    | some t => { s with drag_tab := some t, drag_active := false, drag_start_x := start_x }

/-- `on_tab_drag_update`: below 6 units of horizontal displacement an
inactive drag returns untouched; at or past the threshold the drag
activates (adding the dragging style), and every active update applies
at most the first midpoint crossing found in strip order. -/
def on_tab_drag_update (s : DragState) (offset_x : ℚ) : DragState :=
  match s.drag_tab with
  | none => s
  | some d =>
    if ¬s.drag_active ∧ |offset_x| < 6 then s
    else
      let s1 := if s.drag_active then s
                else { s with drag_active := true, css_dragging := true }
      let cx := s1.drag_start_x + offset_x
      match mid_of_aux s1.width d s1.order 0 with
      | none => s1
      | some dm =>
        { s1 with order := apply_cross s1.order d (find_cross_aux s1.width d dm cx s1.order 0) }

/-- `rebuild_subtabs_list`: read the visual strip order back into the
project's subtab sequence (every strip child carries subtab data). -/
def rebuild_subtabs_list (s : DragState) : DragState :=
  { s with subtabs := s.order }

/-- `on_tab_drag_end`: only a drag that actually activated clears the
dragging style, commits the visual order and saves the session once;
then the gesture data is reset. -/
def on_tab_drag_end (s : DragState) : DragState :=
  let s1 := if s.drag_tab.isSome ∧ s.drag_active then
              let t := rebuild_subtabs_list { s with css_dragging := false }
              { t with saves := t.saves + 1 }
            else s
  { s1 with drag_tab := none, drag_active := false }

/-- A whole in-gesture movement: the drag-update events in order. -/
def run_drag (s : DragState) (offsets : List ℚ) : DragState :=
  offsets.foldl on_tab_drag_update s

/-! ### Derived notions used by the theorems -/

/-- The effective comparison key of `g_ascii_strcasecmp`: lower-cased
bytes before the first NUL. -/
def lower_key (s : List Char) : List Int :=
  (s.takeWhile (fun c => c.toNat ≠ 0)).map (fun c => (g_ascii_tolower c.toNat : Int))

/-- Sign-accurate lexicographic comparison on key lists; running off a
list reads as byte 0. -/
def lex_cmp : List Int → List Int → Int
| [], [] => 0
| [], y :: _ => -y
| x :: _, [] => x
| x :: xs, y :: ys => if x = y then lex_cmp xs ys else x - y

/-- A sidebar row used in concrete sort examples. -/
def sort_row (n : String) (io lu : Int) : Project :=
  { name := n, path := "/tmp", subtabs := [], active_subtab := none,
    subtab_counter := 0, initialized := false, last_used := lu,
    insert_order := io, saved_subtabs := [], saved_active_subtab := 0,
    spawn_requests := 0 }

/-- Concrete drag scenario: two tabs of width 4 (`0` at x∈[0,4), `1` at
x∈[4,8)), the press armed tab `0` at abscissa 1. -/
def drag_example : DragState :=
  { order := [0, 1], width := fun _ => 4, subtabs := [0, 1],
    drag_tab := some 0, drag_active := false, drag_start_x := 1,
    saves := 0, css_dragging := false }

/-- The state of a project right after `create_project(..., TRUE)` on a
fresh application; used as a concrete instance. -/
def c2_witness_project : Project :=
  { name := "a", path := "/a", subtabs := [⟨0, "Tab 1", none⟩],
    active_subtab := some 0, subtab_counter := 1, initialized := true,
    last_used := 0, insert_order := 0, saved_subtabs := [],
    saved_active_subtab := 0, spawn_requests := 1 }

/-- A concrete application state for round-trip instances: one
uninitialized project holding two pending descriptors, MRU sort mode. -/
def c1_witness_app : AppState :=
  { projects := [{ name := "p", path := "/p", subtabs := [], active_subtab := none,
                   subtab_counter := 0, initialized := false, last_used := 7,
                   insert_order := 0, saved_subtabs := [⟨"T1", "/w1"⟩, ⟨"T2", "/w2"⟩],
                   saved_active_subtab := 1, spawn_requests := 0 }],
    active_project := some 0, sort_mode := SortMode.SORT_MRU,
    next_id := 0, spawn_log := [], saves := 0, closing_ids := [], freed_ids := [] }

/-- A state with one initialized project holding exactly one live
subtab (id 0), for concrete close/reopen instances. -/
def c7_witness_app : AppState :=
  { projects := [c2_witness_project], active_project := some 0,
    sort_mode := SortMode.SORT_NONE, next_id := 1, spawn_log := ["/a"],
    saves := 0, closing_ids := [], freed_ids := [] }

/-- The mutual-exclusivity invariant of the spec, per project: an
initialized project has at least one live subtab and no pending
descriptors; an uninitialized one has no live subtabs. -/
def proj_inv (p : Project) : Prop :=
  (p.initialized = true → p.subtabs ≠ [] ∧ p.saved_subtabs = []) ∧
  (p.initialized = false → p.subtabs = [])

/-- The invariant over the whole project collection. -/
def app_inv (app : AppState) : Prop := ∀ p ∈ app.projects, proj_inv p

/-- Events that never select a project's sidebar row — directly, on
creation with an immediate terminal, or automatically after a removal —
and do not explicitly add a tab: none of these can reach
`create_subtab`. -/
def activation_free : Op → Prop
| Op.opSelectProject _ _ => False
| Op.opAddSubtab _ => False
| Op.opCreateProject _ _ init_terminal _ => init_terminal = false
| Op.opRemoveProject _ => False
| _ => True

/-- What `load_session` rebuilds from one saved project: the pending
descriptors it attaches. -/
def restored_saved (p : Project) : List SavedSubTab :=
  if p.initialized then p.subtabs.map (fun st => ⟨st.name, cwd_of st p⟩)
  else p.saved_subtabs

/-- The active-subtab index `save_session` writes for one project. -/
def restored_active (p : Project) : Int :=
  if p.initialized then active_sub_idx p
  else if p.saved_subtabs ≠ [] then p.saved_active_subtab else 0

/-- The project `load_session` reconstructs from `save_project p` when
the running length counter is `k`. -/
def restored_project (k : Int) (p : Project) : Project :=
  { name := p.name, path := p.path, subtabs := [], active_subtab := none,
    subtab_counter := 0, initialized := false, last_used := p.last_used,
    insert_order := k, saved_subtabs := restored_saved p,
    saved_active_subtab := restored_active p, spawn_requests := 0 }

/-- The whole reconstructed project list, positions starting at `k`. -/
def restored_list (k : Nat) : List Project → List Project
| [] => []
| p :: rest => restored_project (k : Int) p :: restored_list (k + 1) rest

/-- Positional agreement demanded by the round-trip claim: identical
name, path and `last_used`; the reloaded project is uninitialized; and a
project that was uninitialized with pending descriptors gets exactly the
same pending name/working-directory pairs and active-subtab index back,
with no live subtabs. -/
def round_trip_matches (p q : Project) : Prop :=
  q.name = p.name ∧ q.path = p.path ∧ q.last_used = p.last_used ∧
  q.initialized = false ∧
  (p.initialized = false → p.saved_subtabs ≠ [] →
    q.saved_subtabs = p.saved_subtabs ∧
    q.saved_active_subtab = p.saved_active_subtab ∧ q.subtabs = [])

/-! ### Helper lemmas about the list primitives -/

theorem update_nth_length {α : Type} (l : List α) (n : Nat) (f : α → α) :
    (update_nth l n f).length = l.length := by
  induction l generalizing n with
  | nil => rfl
  | cons x xs ih =>
    cases n with
    | zero => rfl
    | succ m => simpa [update_nth] using ih m

theorem getElem?_update_nth_self {α : Type} (l : List α) (n : Nat) (f : α → α) :
    (update_nth l n f)[n]? = (l[n]?).map f := by
  induction l generalizing n with
  | nil => rfl
  | cons x xs ih =>
    cases n with
    | zero => simp [update_nth]
    | succ m => simpa [update_nth] using ih m

theorem getElem?_update_nth_ne {α : Type} (l : List α) (n m : Nat) (f : α → α)
    (h : m ≠ n) : (update_nth l n f)[m]? = l[m]? := by
  induction l generalizing n m with
  | nil => rfl
  | cons x xs ih =>
    cases n with
    | zero =>
      cases m with
      | zero => exact absurd rfl h
      | succ k => simp [update_nth]
    | succ n' =>
      cases m with
      | zero => simp [update_nth]
      | succ k =>
        simpa [update_nth] using ih n' k (by omega)

theorem update_nth_update_nth {α : Type} (l : List α) (n : Nat) (f g : α → α) :
    update_nth (update_nth l n f) n g = update_nth l n (fun p => g (f p)) := by
  induction l generalizing n with
  | nil => rfl
  | cons x xs ih =>
    cases n with
    | zero => rfl
    | succ m => simpa [update_nth] using ih m

theorem update_nth_append_length {α : Type} (l : List α) (x : α) (f : α → α) :
    update_nth (l ++ [x]) l.length f = l ++ [f x] := by
  induction l with
  | nil => rfl
  | cons y ys ih => simpa [update_nth] using ih

theorem getElem?_append_length {α : Type} (l : List α) (x : α) :
    (l ++ [x])[l.length]? = some x := by
  induction l with
  | nil => rfl
  | cons y ys ih => simpa using ih

theorem getElem?_append_singleton_ne {α : Type} (l : List α) (x y : α) (n : Nat)
    (h : n ≠ l.length) : (l ++ [x])[n]? = (l ++ [y])[n]? := by
  induction l generalizing n with
  | nil =>
    cases n with
    | zero => exact absurd rfl h
    | succ m => simp
  | cons z zs ih =>
    cases n with
    | zero => simp
    | succ m =>
      have := ih m (by simpa using h)
      simpa using this

theorem forall_update_nth {α : Type} {P : α → Prop} (l : List α) (n : Nat) (f : α → α)
    (hall : ∀ p ∈ l, P p) (hf : ∀ p, l[n]? = some p → P (f p)) :
    ∀ q ∈ update_nth l n f, P q := by
  induction l generalizing n with
  | nil => intro q hq; cases hq
  | cons x xs ih =>
    cases n with
    | zero =>
      intro q hq
      rcases hq with _ | hq
      · exact hf x (by simp)
      · exact hall _ (List.mem_cons_of_mem _ (by assumption))
    | succ m =>
      intro q hq
      rcases hq with _ | hq
      · exact hall _ (List.mem_cons_self _ _)
      · refine ih m (fun p hp => hall p (List.mem_cons_of_mem _ hp)) ?_ _ (by assumption)
        intro p hp
        exact hf p (by simpa using hp)

theorem map_update_nth {α β : Type} (g : α → β) (l : List α) (n : Nat) (f : α → α)
    (h : ∀ p, l[n]? = some p → g (f p) = g p) :
    (update_nth l n f).map g = l.map g := by
  induction l generalizing n with
  | nil => rfl
  | cons x xs ih =>
    cases n with
    | zero => simp [update_nth, h x (by simp)]
    | succ m =>
      have := ih m (fun p hp => h p (by simpa using hp))
      simpa [update_nth] using this

theorem map_remove_nth {α β : Type} (g : α → β) (l : List α) (n : Nat) :
    (remove_nth l n).map g = remove_nth (l.map g) n := by
  induction l generalizing n with
  | nil => rfl
  | cons x xs ih =>
    cases n with
    | zero => rfl
    | succ m => simpa [remove_nth] using ih m

/-- Removing a present subtab shortens the list by exactly one. -/
theorem remove_first_subtab_length (l : List SubTab) (sid : Nat)
    (h : ∃ st ∈ l, st.id = sid) :
    (remove_first_subtab l sid).length + 1 = l.length := by
  induction l with
  | nil => rcases h with ⟨st, hst, _⟩; cases hst
  | cons x xs ih =>
    by_cases hx : x.id = sid
    · simp [remove_first_subtab, hx]
    · rcases h with ⟨st, hst, hid⟩
      rcases hst with _ | hst
      · exact absurd hid hx
      · simpa [remove_first_subtab, hx] using ih ⟨st, by assumption, hid⟩

theorem find_subtab_isSome_iff (p : Project) (sid : Nat) :
    (find_subtab p sid).isSome ↔ ∃ st ∈ p.subtabs, st.id = sid := by
  simp [find_subtab, List.find?_isSome]

/-! ### C9: corrupt-session fallback -/

/-- Claim C9: for every session file whose contents cannot be parsed, or
whose root is not a JSON object, or which lacks a `projects` member,
`load_session` yields an application with zero projects: no partial
project list is produced (and, the model being a total function, the
process never aborts). -/
theorem load_session_corrupt_fallback (root : Option Json) (now : Int)
    (h : root = none ∨ (∃ j, root = some j ∧ getObjectElement j = none) ∨
         (∃ fields, root = some (Json.jobj fields) ∧ hasMember fields "projects" = false)) :
    (load_session root fresh_app now).projects = [] := by
  rcases h with rfl | ⟨j, rfl, hj⟩ | ⟨fields, rfl, hf⟩
  · rfl
  · simp [load_session, hj, fresh_app]
  · simp only [load_session, getObjectElement, hf, Bool.false_eq_true, if_false,
      set_loaded_sort_mode]
    split <;> rfl

/-- Witness for C9 at three concrete corrupt inputs: an unparseable file,
a non-object root, and an object without a `projects` member. -/
theorem load_session_corrupt_fallback_witness :
    (load_session none fresh_app 3).projects = [] ∧
    (load_session (some (Json.jstr "garbage")) fresh_app 3).projects = [] ∧
    (load_session (some (Json.jobj [("sort_mode", Json.jstr "mru")])) fresh_app 3).projects = [] := by
  refine ⟨load_session_corrupt_fallback none 3 (Or.inl rfl), ?_, ?_⟩
  · exact load_session_corrupt_fallback _ 3 (Or.inr (Or.inl ⟨_, rfl, rfl⟩))
  · exact load_session_corrupt_fallback _ 3 (Or.inr (Or.inr ⟨_, rfl, rfl⟩))

/-! ### C4: sort-engine correctness

`g_ascii_strcasecmp` is a lexicographic comparison of the lower-cased
byte sequences before the first NUL; `lex_cmp` and the `lower_key`
extraction make its totality and transitivity provable. -/

theorem g_ascii_tolower_pos {n : Nat} (h : n ≠ 0) : 0 < g_ascii_tolower n := by
  unfold g_ascii_tolower
  split <;> omega

theorem g_ascii_tolower_zero : g_ascii_tolower 0 = 0 := by
  unfold g_ascii_tolower
  split <;> omega

theorem lower_key_pos (s : List Char) : ∀ x ∈ lower_key s, 0 < x := by
  intro x hx
  simp only [lower_key, List.mem_map] at hx
  obtain ⟨c, hc, rfl⟩ := hx
  have hne : c.toNat ≠ 0 := by
    have := List.mem_takeWhile_imp hc
    simpa using this
  exact_mod_cast g_ascii_tolower_pos hne

theorem strcasecmp_eq_lex : ∀ a b : List Char,
    g_ascii_strcasecmp a b = lex_cmp (lower_key a) (lower_key b) := by
  intro a
  induction a with
  | nil =>
    intro b
    cases b with
    | nil => rfl
    | cons c2 t2 =>
      by_cases h2 : c2.toNat = 0
      · simp [g_ascii_strcasecmp, cstr_head_lower, lower_key, lex_cmp, h2,
              g_ascii_tolower_zero]
      · simp [g_ascii_strcasecmp, cstr_head_lower, lower_key, lex_cmp, h2]
  | cons c1 t1 ih =>
    intro b
    cases b with
    | nil =>
      by_cases h1 : c1.toNat = 0
      · simp [g_ascii_strcasecmp, cstr_head_lower, lower_key, lex_cmp, h1,
              g_ascii_tolower_zero]
      · simp [g_ascii_strcasecmp, cstr_head_lower, lower_key, lex_cmp, h1]
    | cons c2 t2 =>
      by_cases h1 : c1.toNat = 0
      · by_cases h2 : c2.toNat = 0
        · simp [g_ascii_strcasecmp, cstr_head_lower, lower_key, lex_cmp, h1, h2,
                g_ascii_tolower_zero]
        · simp [g_ascii_strcasecmp, cstr_head_lower, lower_key, lex_cmp, h1, h2,
                g_ascii_tolower_zero]
      · by_cases h2 : c2.toNat = 0
        · simp [g_ascii_strcasecmp, cstr_head_lower, lower_key, lex_cmp, h1, h2,
                g_ascii_tolower_zero]
        · by_cases heq : g_ascii_tolower c1.toNat = g_ascii_tolower c2.toNat
          · simpa [g_ascii_strcasecmp, lower_key, lex_cmp, h1, h2, heq] using ih t2
          · have : ¬ ((g_ascii_tolower c1.toNat : Int) = (g_ascii_tolower c2.toNat : Int)) := by
              exact_mod_cast heq
            simp [g_ascii_strcasecmp, lower_key, lex_cmp, h1, h2, heq, this]

theorem lex_cmp_antisym : ∀ a b : List Int, lex_cmp b a = -lex_cmp a b := by
  intro a
  induction a with
  | nil =>
    intro b
    cases b <;> simp [lex_cmp]
  | cons x xs ih =>
    intro b
    cases b with
    | nil => simp [lex_cmp]
    | cons y ys =>
      by_cases h : x = y
      · simp [lex_cmp, h, ih ys]
      · have h' : ¬ y = x := fun hh => h hh.symm
        simp only [lex_cmp, if_neg h, if_neg h']
        omega

theorem lex_cmp_trans :
    ∀ a b c : List Int, (∀ x ∈ a, 0 < x) → (∀ x ∈ b, 0 < x) → (∀ x ∈ c, 0 < x) →
      lex_cmp a b ≤ 0 → lex_cmp b c ≤ 0 → lex_cmp a c ≤ 0 := by
  intro a
  induction a with
  | nil =>
    intro b c _ _ hc _ _
    cases c with
    | nil => simp [lex_cmp]
    | cons z zs =>
      have := hc z (List.mem_cons_self _ _)
      simp only [lex_cmp]
      omega
  | cons x xs ih =>
    intro b c ha hb hc hab hbc
    cases b with
    | nil =>
      have := ha x (List.mem_cons_self _ _)
      simp only [lex_cmp] at hab
      omega
    | cons y ys =>
      cases c with
      | nil =>
        have := hb y (List.mem_cons_self _ _)
        simp only [lex_cmp] at hbc
        omega
      | cons z zs =>
        by_cases hxy : x = y
        · by_cases hyz : y = z
          · have hxz : x = z := hxy.trans hyz
            simp only [lex_cmp, if_pos hxy] at hab
            simp only [lex_cmp, if_pos hyz] at hbc
            simp only [lex_cmp, if_pos hxz]
            exact ih ys zs (fun u hu => ha u (List.mem_cons_of_mem _ hu))
              (fun u hu => hb u (List.mem_cons_of_mem _ hu))
              (fun u hu => hc u (List.mem_cons_of_mem _ hu)) hab hbc
          · by_cases hxz : x = z
            · simp only [lex_cmp, if_neg hyz] at hbc
              simp only [lex_cmp, if_pos hxz]
              omega
            · simp only [lex_cmp, if_neg hyz] at hbc
              simp only [lex_cmp, if_neg hxz]
              omega
        · by_cases hxz : x = z
          · simp only [lex_cmp, if_neg hxy] at hab
            by_cases hyz : y = z
            · omega
            · simp only [lex_cmp, if_neg hyz] at hbc
              omega
          · simp only [lex_cmp, if_neg hxy] at hab
            by_cases hyz : y = z
            · subst hyz
              simp only [lex_cmp, if_neg hxz]
              omega
            · simp only [lex_cmp, if_neg hyz] at hbc
              simp only [lex_cmp, if_neg hxz]
              omega

theorem sort_func_alpha_total (a b : Project) :
    sort_func_alpha a b ≤ 0 ∨ sort_func_alpha b a ≤ 0 := by
  unfold sort_func_alpha
  rw [strcasecmp_eq_lex, strcasecmp_eq_lex, lex_cmp_antisym]
  omega

theorem sort_func_alpha_trans (a b c : Project) (h1 : sort_func_alpha a b ≤ 0)
    (h2 : sort_func_alpha b c ≤ 0) : sort_func_alpha a c ≤ 0 := by
  unfold sort_func_alpha at h1 h2 ⊢
  rw [strcasecmp_eq_lex] at h1 h2 ⊢
  exact lex_cmp_trans _ _ _ (lower_key_pos _) (lower_key_pos _) (lower_key_pos _) h1 h2

/-- Claim C4: for every project collection, manual mode orders by
`insert_order` ascending, alphabetical mode by the case-insensitive name
comparison, and MRU mode by `last_used` descending; the claim's three
worked examples hold; and applying a sort mode only permutes the rows —
every project of the output is a project of the input unchanged, so no
`insert_order`, `name` or `last_used` is mutated. -/
theorem apply_sort_correct :
    (∀ rows : List Project,
       List.Sorted (fun a b => a.insert_order ≤ b.insert_order)
         (apply_sort SortMode.SORT_NONE rows) ∧
       List.Sorted (fun a b => sort_func_alpha a b ≤ 0)
         (apply_sort SortMode.SORT_ALPHA rows) ∧
       List.Sorted (fun a b => b.last_used ≤ a.last_used)
         (apply_sort SortMode.SORT_MRU rows)) ∧
    (∀ (m : SortMode) (rows : List Project), (apply_sort m rows).Perm rows) ∧
    (apply_sort SortMode.SORT_NONE
        [sort_row "px" 2 0, sort_row "py" 0 0, sort_row "pz" 1 0]).map
        (fun p => p.insert_order) = [0, 1, 2] ∧
    (apply_sort SortMode.SORT_ALPHA
        [sort_row "banana" 2 0, sort_row "apple" 0 0, sort_row "cherry" 1 0]).map
        Project.name = ["apple", "banana", "cherry"] ∧
    (apply_sort SortMode.SORT_MRU
        [sort_row "pa" 0 10, sort_row "pb" 1 30, sort_row "pc" 2 20]).map
        (fun p => p.last_used) = [30, 20, 10] := by
  refine ⟨?_, ?_, by decide, by decide, by decide⟩
  · intro rows
    refine ⟨?_, ?_, ?_⟩
    · haveI : IsTotal Project (fun a b => sort_func SortMode.SORT_NONE a b ≤ 0) := by
        constructor
        intro a b
        simp only [sort_func, sort_func_insertion]
        omega
      haveI : IsTrans Project (fun a b => sort_func SortMode.SORT_NONE a b ≤ 0) := by
        constructor
        intro a b c h1 h2
        simp only [sort_func, sort_func_insertion] at h1 h2 ⊢
        omega
      have h := List.sorted_insertionSort (fun a b => sort_func SortMode.SORT_NONE a b ≤ 0) rows
      refine h.imp ?_
      intro a b hab
      simp only [sort_func, sort_func_insertion] at hab
      omega
    · haveI : IsTotal Project (fun a b => sort_func SortMode.SORT_ALPHA a b ≤ 0) := by
        constructor
        intro a b
        exact sort_func_alpha_total a b
      haveI : IsTrans Project (fun a b => sort_func SortMode.SORT_ALPHA a b ≤ 0) := by
        constructor
        intro a b c h1 h2
        exact sort_func_alpha_trans a b c h1 h2
      exact List.sorted_insertionSort (fun a b => sort_func SortMode.SORT_ALPHA a b ≤ 0) rows
    · haveI : IsTotal Project (fun a b => sort_func SortMode.SORT_MRU a b ≤ 0) := by
        constructor
        intro a b
        simp only [sort_func, sort_func_mru]
        split <;> split <;> omega
      haveI : IsTrans Project (fun a b => sort_func SortMode.SORT_MRU a b ≤ 0) := by
        constructor
        intro a b c h1 h2
        simp only [sort_func, sort_func_mru] at h1 h2 ⊢
        split at h1 <;> split at h2 <;> split <;> omega
      have h := List.sorted_insertionSort (fun a b => sort_func SortMode.SORT_MRU a b ≤ 0) rows
      refine h.imp ?_
      intro a b hab
      simp only [sort_func, sort_func_mru] at hab
      split at hab <;> omega
  · intro m rows
    exact List.perm_insertionSort _ rows

/-! ### C6 and C10: tab-reorder controller -/

/-- Below the 6-unit threshold an inactive drag update changes nothing. -/
theorem drag_update_below_threshold (s : DragState) (o : ℚ)
    (hact : s.drag_active = false) (ho : |o| < 6) :
    on_tab_drag_update s o = s := by
  unfold on_tab_drag_update
  cases hd : s.drag_tab with
  | none => rfl
  | some d => simp [hact, ho]

/-- A whole sub-threshold movement changes nothing. -/
theorem run_drag_below_threshold (s : DragState) (offsets : List ℚ)
    (hact : s.drag_active = false) (ho : ∀ o ∈ offsets, |o| < 6) :
    run_drag s offsets = s := by
  induction offsets with
  | nil => rfl
  | cons o rest ih =>
    have h1 : on_tab_drag_update s o = s :=
      drag_update_below_threshold s o hact (ho o (List.mem_cons_self _ _))
    show run_drag (on_tab_drag_update s o) rest = s
    rw [h1]
    exact ih (fun x hx => ho x (List.mem_cons_of_mem _ hx))

/-- Claim C6: a gesture whose horizontal displacement never reaches the
6-unit threshold commits nothing — subtab order and strip order are
unchanged, no save is triggered, and the dragging style is never
applied; once the threshold is crossed (`drag-active`), releasing
commits the current visual order and triggers exactly one save; in the
concrete two-tab scenario a 7-unit drag crosses the neighbor's midpoint,
so releasing commits the swapped order with exactly one save. -/
theorem tab_drag_threshold_behavior :
    (∀ (s : DragState) (offsets : List ℚ),
      s.drag_active = false → s.css_dragging = false →
      (∀ o ∈ offsets, |o| < 6) →
      (on_tab_drag_end (run_drag s offsets)).subtabs = s.subtabs ∧
      (on_tab_drag_end (run_drag s offsets)).order = s.order ∧
      (on_tab_drag_end (run_drag s offsets)).saves = s.saves ∧
      (on_tab_drag_end (run_drag s offsets)).css_dragging = false) ∧
    (∀ s : DragState, s.drag_tab.isSome = true → s.drag_active = true →
      (on_tab_drag_end s).saves = s.saves + 1 ∧
      (on_tab_drag_end s).subtabs = s.order) ∧
    ((on_tab_drag_end (run_drag drag_example [7])).subtabs = [1, 0] ∧
     (on_tab_drag_end (run_drag drag_example [7])).saves = 1) := by
  refine ⟨?_, ?_, ?_⟩
  · intro s offsets hact hcss ho
    rw [run_drag_below_threshold s offsets hact ho]
    unfold on_tab_drag_end
    simp [hact, hcss]
  · intro s h1 h2
    unfold on_tab_drag_end
    simp [h1, h2, rebuild_subtabs_list]
  · constructor <;>
      norm_num [run_drag, on_tab_drag_update, drag_example, mid_of_aux,
        find_cross_aux, apply_cross, reorder_child_after, erase_tab,
        insert_after_tab, prev_sibling, on_tab_drag_end, rebuild_subtabs_list]

/-- Witness for C6: the sub-threshold part at the concrete 5-unit drag
of the spec's example (5 < 6), and the commit part at the activated
concrete state. -/
theorem tab_drag_threshold_behavior_witness :
    ((on_tab_drag_end (run_drag drag_example [5])).subtabs = [0, 1] ∧
     (on_tab_drag_end (run_drag drag_example [5])).saves = 0 ∧
     (on_tab_drag_end (run_drag drag_example [5])).css_dragging = false) ∧
    (on_tab_drag_end { drag_example with drag_active := true }).saves = 1 := by
  constructor
  · have h := tab_drag_threshold_behavior.1 drag_example [5] rfl rfl
      (by intro o ho; simp at ho; rw [ho]; norm_num)
    exact ⟨h.1, h.2.2.1, h.2.2.2⟩
  · exact (tab_drag_threshold_behavior.2.1 { drag_example with drag_active := true }
      rfl rfl).1

/-- `insert_after_tab` inserts exactly one copy of `x`. -/
theorem insert_after_tab_perm (l : List Nat) (a x : Nat) :
    (insert_after_tab l a x).Perm (x :: l) := by
  induction l with
  | nil => exact List.Perm.refl _
  | cons c rest ih =>
    by_cases h : c = a
    · simp only [insert_after_tab, if_pos h]
      exact List.Perm.swap _ _ _
    · simp only [insert_after_tab, if_neg h]
      exact (ih.cons c).trans (List.Perm.swap _ _ _)

/-- Erasing a present tab and re-consing it is a permutation. -/
theorem erase_tab_perm {l : List Nat} {x : Nat} (h : x ∈ l) :
    l.Perm (x :: erase_tab l x) := by
  induction l with
  | nil => cases h
  | cons c rest ih =>
    by_cases hc : c = x
    · subst hc
      simp [erase_tab]
    · rcases h with _ | h
      · exact absurd rfl hc
      · simp only [erase_tab, if_neg hc]
        exact ((ih (by assumption)).cons c).trans (List.Perm.swap _ _ _)

/-- `gtk_box_reorder_child_after` only moves the dragged tab. -/
theorem reorder_child_after_perm (l : List Nat) (x : Nat) (anchor : Option Nat)
    (h : x ∈ l) : (reorder_child_after l x anchor).Perm l := by
  cases anchor with
  | none => exact (erase_tab_perm h).symm
  | some a => exact (insert_after_tab_perm _ a x).trans (erase_tab_perm h).symm

/-- Each midpoint-crossing move permutes the strip. -/
theorem apply_cross_perm (order : List Nat) (d : Nat)
    (act : Option (Bool × Nat)) (h : d ∈ order) :
    (apply_cross order d act).Perm order := by
  match act with
  | none => exact List.Perm.refl _
  | some (true, c) =>
    simp only [apply_cross]
    cases prev_sibling order c with
    | none => exact reorder_child_after_perm order d none h
    | some pv =>
      by_cases hpv : pv = d
      · simp [hpv]
      · simp only [if_neg hpv]
        exact reorder_child_after_perm order d (some pv) h
  | some (false, c) => exact reorder_child_after_perm order d (some c) h

/-- One drag update never touches the dragged-tab data, the committed
subtab list or the save counter. -/
theorem drag_update_fields (s : DragState) (o : ℚ) :
    (on_tab_drag_update s o).drag_tab = s.drag_tab ∧
    (on_tab_drag_update s o).subtabs = s.subtabs ∧
    (on_tab_drag_update s o).saves = s.saves := by
  unfold on_tab_drag_update
  dsimp only
  repeat' split
  all_goals exact ⟨rfl, rfl, rfl⟩

/-- One drag update only permutes the strip order. -/
theorem drag_update_order_perm (s : DragState) (o : ℚ) (d : Nat)
    (hd : s.drag_tab = some d) (hmem : d ∈ s.order) :
    ((on_tab_drag_update s o).order).Perm s.order := by
  unfold on_tab_drag_update
  rw [hd]
  dsimp only
  split
  · exact List.Perm.refl _
  · by_cases ha : s.drag_active = true
    · simp only [if_pos ha]
      split
      · exact List.Perm.refl _
      · exact apply_cross_perm _ _ _ hmem
    · simp only [if_neg ha]
      split
      · exact List.Perm.refl _
      · exact apply_cross_perm _ _ _ hmem

/-- A whole movement: the strip order is a permutation of the initial
one, and the committed subtab list is untouched until release. -/
theorem run_drag_invariant (offsets : List ℚ) (s : DragState) (d : Nat)
    (hd : s.drag_tab = some d) (hmem : d ∈ s.order) :
    ((run_drag s offsets).order).Perm s.order ∧
    (run_drag s offsets).drag_tab = some d ∧
    (run_drag s offsets).subtabs = s.subtabs := by
  induction offsets generalizing s with
  | nil => exact ⟨List.Perm.refl _, hd, rfl⟩
  | cons o rest ih =>
    have h := drag_update_fields s o
    have hperm : ((on_tab_drag_update s o).order).Perm s.order :=
      drag_update_order_perm s o d hd hmem
    have hd' : (on_tab_drag_update s o).drag_tab = some d := h.1.trans hd
    have hmem' : d ∈ (on_tab_drag_update s o).order := hperm.mem_iff.mpr hmem
    have hrec := ih (on_tab_drag_update s o) hd' hmem'
    exact ⟨hrec.1.trans hperm, hrec.2.1, hrec.2.2.trans h.2.1⟩

/-- Claim C10 (implicit): for every drag gesture over a strip whose
committed subtab list mirrors the strip order, the subtab sequence read
back at drag-end is a permutation of the one before the drag — same
subtabs, none created, lost or duplicated (no-duplicate preservation
included). -/
theorem drag_commit_is_permutation (s : DragState) (d : Nat) (offsets : List ℚ)
    (hd : s.drag_tab = some d) (hmem : d ∈ s.order) (hsync : s.subtabs = s.order) :
    ((on_tab_drag_end (run_drag s offsets)).subtabs).Perm s.subtabs ∧
    (s.subtabs.Nodup → (on_tab_drag_end (run_drag s offsets)).subtabs.Nodup) := by
  obtain ⟨hperm, hdt, hsub⟩ := run_drag_invariant offsets s d hd hmem
  have hmain : ((on_tab_drag_end (run_drag s offsets)).subtabs).Perm s.subtabs := by
    unfold on_tab_drag_end
    by_cases hc : (run_drag s offsets).drag_tab.isSome = true ∧
        (run_drag s offsets).drag_active = true
    · simp only [if_pos hc, rebuild_subtabs_list]
      rw [hsync]
      exact hperm
    · simp only [if_neg hc, hsub]
      exact List.Perm.refl _
  exact ⟨hmain, fun hnd => hmain.nodup_iff.mpr hnd⟩

/-- Witness for C10 at the concrete two-tab scenario: the 7-unit drag
commits `[1, 0]`, a permutation of `[0, 1]` with no duplicates. -/
theorem drag_commit_is_permutation_witness :
    ((on_tab_drag_end (run_drag drag_example [7])).subtabs).Perm
      drag_example.subtabs ∧
    (drag_example.subtabs.Nodup →
      (on_tab_drag_end (run_drag drag_example [7])).subtabs.Nodup) :=
  drag_commit_is_permutation drag_example 0 [7] rfl (by simp [drag_example])
    rfl

/-! ### Operation specifications

Each lifecycle operation is summarized by how it transforms the project
collection, index by index; these lemmas drive the invariant,
round-trip, lazy-initialization and `insert_order` theorems. -/

theorem proj_inv_append {l : List Project} {x : Project}
    (hl : ∀ p ∈ l, proj_inv p) (hx : proj_inv x) : ∀ p ∈ l ++ [x], proj_inv p := by
  intro p hp
  rcases List.mem_append.mp hp with h | h
  · exact hl p h
  · have := List.mem_singleton.mp h
    subst this
    exact hx

theorem fresh_project_inv (k : Int) (name path : String) :
    proj_inv (fresh_project k name path) := by
  constructor
  · intro h
    simp [fresh_project] at h
  · intro _
    rfl

theorem create_project_false_projects (app : AppState) (name path : String) (now : Int) :
    (create_project app name path false now).projects =
      app.projects ++ [fresh_project (app.projects.length : Int) name path] := rfl

theorem create_subtab_spec (app : AppState) (i : Nat) (name wd : String) :
    (create_subtab app i name wd).projects.length = app.projects.length ∧
    (∀ j, j ≠ i → (create_subtab app i name wd).projects[j]? = app.projects[j]?) ∧
    (create_subtab app i name wd).projects[i]? = (app.projects[i]?).map (fun p =>
      { p with subtabs := p.subtabs ++ [⟨app.next_id, name, none⟩],
               active_subtab := some app.next_id,
               spawn_requests := p.spawn_requests + 1 }) :=
  ⟨update_nth_length _ _ _, fun j hj => getElem?_update_nth_ne _ _ _ _ hj,
   getElem?_update_nth_self _ _ _⟩

theorem subtab_clicked_spec (app : AppState) (i : Nat) (sid : Nat) :
    (on_subtab_button_clicked app i sid).projects.length = app.projects.length ∧
    (∀ j, j ≠ i → (on_subtab_button_clicked app i sid).projects[j]? = app.projects[j]?) ∧
    (on_subtab_button_clicked app i sid).projects[i]? = (app.projects[i]?).map (fun p =>
      { p with active_subtab := some sid }) :=
  ⟨update_nth_length _ _ _, fun j hj => getElem?_update_nth_ne _ _ _ _ hj,
   getElem?_update_nth_self _ _ _⟩

theorem restore_saved_spec (saved : List SavedSubTab) :
    ∀ (app : AppState) (i : Nat),
    (restore_saved i app saved).projects.length = app.projects.length ∧
    (∀ j, j ≠ i → (restore_saved i app saved).projects[j]? = app.projects[j]?) ∧
    (∀ p, app.projects[i]? = some p → ∃ q,
      (restore_saved i app saved).projects[i]? = some q ∧
      q.saved_subtabs = p.saved_subtabs ∧ q.initialized = p.initialized ∧
      q.subtabs.length = p.subtabs.length + saved.length ∧
      q.name = p.name ∧ q.path = p.path ∧ q.insert_order = p.insert_order ∧
      q.last_used = p.last_used) := by
  induction saved with
  | nil =>
    intro app i
    exact ⟨rfl, fun _ _ => rfl, fun p hp => ⟨p, hp, rfl, rfl, by simp, rfl, rfl, rfl, rfl⟩⟩
  | cons s rest ih =>
    intro app i
    have hc := create_subtab_spec app i s.name s.working_dir
    have hr := ih (create_subtab app i s.name s.working_dir) i
    refine ⟨?_, ?_, ?_⟩
    · show (restore_saved i (create_subtab app i s.name s.working_dir) rest).projects.length = _
      rw [hr.1, hc.1]
    · intro j hj
      show (restore_saved i (create_subtab app i s.name s.working_dir) rest).projects[j]? = _
      rw [hr.2.1 j hj, hc.2.1 j hj]
    · intro p hp
      have hstep : (create_subtab app i s.name s.working_dir).projects[i]? =
          some { p with subtabs := p.subtabs ++ [⟨app.next_id, s.name, none⟩],
                        active_subtab := some app.next_id,
                        spawn_requests := p.spawn_requests + 1 } := by
        rw [hc.2.2, hp]
        rfl
      obtain ⟨q, hq, h1, h2, h3, h4, h5, h6, h7⟩ := hr.2.2 _ hstep
      refine ⟨q, hq, h1, h2, ?_, h4, h5, h6, h7⟩
      simp only [List.length_append, List.length_cons, List.length_nil, List.length_cons] at h3 ⊢
      omega

theorem bump_last_used_spec (app : AppState) (i : Nat) (now : Int) :
    (bump_last_used app i now).projects.length = app.projects.length ∧
    (∀ j, j ≠ i → (bump_last_used app i now).projects[j]? = app.projects[j]?) ∧
    (bump_last_used app i now).projects[i]? = (app.projects[i]?).map (fun p =>
      { p with last_used := now }) :=
  ⟨update_nth_length _ _ _, fun j hj => getElem?_update_nth_ne _ _ _ _ hj,
   getElem?_update_nth_self _ _ _⟩

theorem mark_first_tab_spec (app : AppState) (i : Nat) :
    (mark_first_tab app i).projects.length = app.projects.length ∧
    (∀ j, j ≠ i → (mark_first_tab app i).projects[j]? = app.projects[j]?) ∧
    (mark_first_tab app i).projects[i]? = (app.projects[i]?).map (fun p =>
      { p with subtab_counter := 1, initialized := true }) :=
  ⟨update_nth_length _ _ _, fun j hj => getElem?_update_nth_ne _ _ _ _ hj,
   getElem?_update_nth_self _ _ _⟩

theorem clear_saved_spec (app : AppState) (i : Nat) :
    (clear_saved app i).projects.length = app.projects.length ∧
    (∀ j, j ≠ i → (clear_saved app i).projects[j]? = app.projects[j]?) ∧
    (clear_saved app i).projects[i]? = (app.projects[i]?).map (fun p =>
      { p with saved_subtabs := [] }) :=
  ⟨update_nth_length _ _ _, fun j hj => getElem?_update_nth_ne _ _ _ _ hj,
   getElem?_update_nth_self _ _ _⟩

theorem bump_counter_spec (app : AppState) (i : Nat) :
    (bump_counter app i).projects.length = app.projects.length ∧
    (∀ j, j ≠ i → (bump_counter app i).projects[j]? = app.projects[j]?) ∧
    (bump_counter app i).projects[i]? = (app.projects[i]?).map (fun p =>
      { p with subtab_counter := p.subtab_counter + 1 }) :=
  ⟨update_nth_length _ _ _, fun j hj => getElem?_update_nth_ne _ _ _ _ hj,
   getElem?_update_nth_self _ _ _⟩

theorem set_restored_counter_spec (app : AppState) (i : Nat) (n : Int) :
    (set_restored_counter app i n).projects.length = app.projects.length ∧
    (∀ j, j ≠ i → (set_restored_counter app i n).projects[j]? = app.projects[j]?) ∧
    (set_restored_counter app i n).projects[i]? = (app.projects[i]?).map (fun p =>
      { p with subtab_counter := n }) :=
  ⟨update_nth_length _ _ _, fun j hj => getElem?_update_nth_ne _ _ _ _ hj,
   getElem?_update_nth_self _ _ _⟩

theorem finish_restore_spec (app : AppState) (i : Nat) :
    (finish_restore app i).projects.length = app.projects.length ∧
    (∀ j, j ≠ i → (finish_restore app i).projects[j]? = app.projects[j]?) ∧
    (finish_restore app i).projects[i]? = (app.projects[i]?).map (fun p =>
      { p with saved_subtabs := [], initialized := true }) :=
  ⟨update_nth_length _ _ _, fun j hj => getElem?_update_nth_ne _ _ _ _ hj,
   getElem?_update_nth_self _ _ _⟩

/-- The saved-index activation touches at most `active_subtab` of
project `i`. -/
theorem activate_saved_index_spec (app : AppState) (i : Nat) (sas : Int) (p : Project)
    (hp : app.projects[i]? = some p) :
    (activate_saved_index app i sas).projects.length = app.projects.length ∧
    (∀ j, j ≠ i → (activate_saved_index app i sas).projects[j]? = app.projects[j]?) ∧
    ∃ q, (activate_saved_index app i sas).projects[i]? = some q ∧
      q.subtabs = p.subtabs ∧ q.saved_subtabs = p.saved_subtabs ∧
      q.initialized = p.initialized ∧ q.name = p.name ∧ q.path = p.path ∧
      q.insert_order = p.insert_order ∧ q.last_used = p.last_used ∧
      q.subtab_counter = p.subtab_counter := by
  unfold activate_saved_index
  split
  · next heq =>
    rw [hp] at heq
    cases heq
  · next q' heq =>
    rw [hp] at heq
    injection heq with heq
    subst heq
    split
    · split
      · next st hst =>
        have hb := subtab_clicked_spec app i st.id
        refine ⟨hb.1, hb.2.1, ?_⟩
        refine ⟨{ p with active_subtab := some st.id }, ?_, rfl, rfl, rfl, rfl,
          rfl, rfl, rfl, rfl⟩
        rw [hb.2.2, hp]
        rfl
      · exact ⟨rfl, fun _ _ => rfl, p, hp, rfl, rfl, rfl, rfl, rfl, rfl, rfl, rfl⟩
    · exact ⟨rfl, fun _ _ => rfl, p, hp, rfl, rfl, rfl, rfl, rfl, rfl, rfl, rfl⟩

/-- The pending-descriptor materialization: index by index. -/
theorem materialize_saved_spec (app1 : AppState) (i : Nat) (p : Project) (p1 : Project)
    (hp : app1.projects[i]? = some p1) :
    (materialize_saved app1 i p).projects.length = app1.projects.length ∧
    (∀ j, j ≠ i → (materialize_saved app1 i p).projects[j]? = app1.projects[j]?) ∧
    ∃ q, (materialize_saved app1 i p).projects[i]? = some q ∧
      q.saved_subtabs = [] ∧ q.initialized = true ∧
      q.subtabs.length = p1.subtabs.length + p.saved_subtabs.length ∧
      q.name = p1.name ∧ q.path = p1.path ∧ q.insert_order = p1.insert_order ∧
      q.last_used = p1.last_used := by
  have hr := restore_saved_spec p.saved_subtabs app1 i
  obtain ⟨q1, hq1, hr1, hr2, hr3, hr4, hr5, hr6, hr7⟩ := hr.2.2 _ hp
  have hsc := set_restored_counter_spec (restore_saved i app1 p.saved_subtabs) i
    ((p.saved_subtabs.length : Nat) : Int)
  have hq2 : (set_restored_counter (restore_saved i app1 p.saved_subtabs) i
      ((p.saved_subtabs.length : Nat) : Int)).projects[i]? =
      some { q1 with subtab_counter := ((p.saved_subtabs.length : Nat) : Int) } := by
    rw [hsc.2.2, hq1]
    rfl
  have hai := activate_saved_index_spec
    (set_restored_counter (restore_saved i app1 p.saved_subtabs) i
      ((p.saved_subtabs.length : Nat) : Int)) i p.saved_active_subtab _ hq2
  obtain ⟨q3, hq3, ha1, ha2, ha3, ha4, ha5, ha6, ha7, ha8⟩ := hai.2.2
  have hfr := finish_restore_spec
    (activate_saved_index
      (set_restored_counter (restore_saved i app1 p.saved_subtabs) i
        ((p.saved_subtabs.length : Nat) : Int)) i p.saved_active_subtab) i
  refine ⟨?_, ?_, ?_⟩
  · show (finish_restore _ i).projects.length = _
    rw [hfr.1, hai.1, hsc.1, hr.1]
  · intro j hj
    show (finish_restore _ i).projects[j]? = _
    rw [hfr.2.1 j hj, hai.2.1 j hj, hsc.2.1 j hj, hr.2.1 j hj]
  · refine ⟨{ q3 with saved_subtabs := [], initialized := true }, ?_, rfl, rfl,
      ?_, ?_, ?_, ?_, ?_⟩
    · show (finish_restore _ i).projects[i]? = _
      rw [hfr.2.2, hq3]
      rfl
    · show q3.subtabs.length = _
      rw [ha1]
      show q1.subtabs.length = _
      rw [hr3]
    · show q3.name = _
      rw [ha4]
      exact hr4
    · show q3.path = _
      rw [ha5]
      exact hr5
    · show q3.insert_order = _
      rw [ha6]
      exact hr6
    · show q3.last_used = _
      rw [ha7]
      exact hr7

/-- Index-by-index behavior of `on_project_selected` on a hit row:
projects other than `i` are untouched; project `i` gets `last_used`
bumped and, when uninitialized, is materialized — with one default
"Tab 1" when no descriptors are pending, else with one live subtab per
descriptor, the descriptors discarded. -/
theorem on_project_selected_spec (app : AppState) (i : Nat) (now : Int) (p0 : Project)
    (hp : app.projects[i]? = some p0) :
    (on_project_selected app i now).projects.length = app.projects.length ∧
    (∀ j, j ≠ i → (on_project_selected app i now).projects[j]? = app.projects[j]?) ∧
    ∃ q, (on_project_selected app i now).projects[i]? = some q ∧
      ((p0.initialized = true ∧ q = { p0 with last_used := now }) ∨
       (p0.initialized = false ∧ p0.saved_subtabs = [] ∧
         q = { p0 with
               last_used := now,
               subtabs := p0.subtabs ++ [⟨app.next_id, "Tab 1", none⟩],
               active_subtab := some app.next_id,
               spawn_requests := p0.spawn_requests + 1,
               subtab_counter := 1, initialized := true }) ∨
       (p0.initialized = false ∧ p0.saved_subtabs ≠ [] ∧ q.initialized = true ∧
         q.saved_subtabs = [] ∧
         q.subtabs.length = p0.subtabs.length + p0.saved_subtabs.length ∧
         q.name = p0.name ∧ q.path = p0.path ∧ q.insert_order = p0.insert_order ∧
         q.last_used = now)) := by
  have hb : (bump_last_used app i now).projects[i]? = some { p0 with last_used := now } := by
    rw [(bump_last_used_spec app i now).2.2, hp]
    rfl
  have hblen := (bump_last_used_spec app i now).1
  have hboth := (bump_last_used_spec app i now).2.1
  unfold on_project_selected
  rw [hp, hb]
  split
  · next heq => cases heq
  · next val heq =>
    injection heq with heq
    subst heq
    split
    · next heq2 => cases heq2
    · next p2 heq2 =>
      injection heq2 with heq2
      subst heq2
      split
      · next hni =>
        have hinit0 : p0.initialized = false := by
          simpa using hni
        split
        · next hsv =>
          have hsv0 : p0.saved_subtabs ≠ [] := by
            simpa using hsv
          have hms := materialize_saved_spec (bump_last_used app i now) i
            { p0 with last_used := now } { p0 with last_used := now } hb
          obtain ⟨q, hq, hm1, hm2, hm3, hm4, hm5, hm6, hm7⟩ := hms.2.2
          refine ⟨by rw [hms.1, hblen], fun j hj => by rw [hms.2.1 j hj, hboth j hj], q, hq,
            Or.inr (Or.inr ⟨hinit0, hsv0, hm2, hm1, ?_, hm4, hm5, hm6, hm7⟩)⟩
          simpa using hm3
        · next hsv =>
          have hsv0 : p0.saved_subtabs = [] := by
            have := hsv
            simp only [ne_eq, not_not] at this
            simpa using this
          have hcs := create_subtab_spec (bump_last_used app i now) i "Tab 1"
            ({ p0 with last_used := now } : Project).path
          have hmf := mark_first_tab_spec
            (create_subtab (bump_last_used app i now) i "Tab 1"
              ({ p0 with last_used := now } : Project).path) i
          refine ⟨by rw [hmf.1, hcs.1, hblen],
            fun j hj => by rw [hmf.2.1 j hj, hcs.2.1 j hj, hboth j hj], ?_⟩
          refine ⟨_, ?_, Or.inr (Or.inl ⟨hinit0, hsv0, rfl⟩)⟩
          rw [hmf.2.2, hcs.2.2, hb]
          rfl
      · next hni =>
        have hinit0 : p0.initialized = true := by
          simpa using hni
        exact ⟨hblen, hboth, { p0 with last_used := now }, hb, Or.inl ⟨hinit0, rfl⟩⟩

/-- Fields of the application state other than the project list and the
active pointer that the selection handler never touches. -/
theorem restore_saved_other (saved : List SavedSubTab) : ∀ (app : AppState) (i : Nat),
    (restore_saved i app saved).active_project = app.active_project ∧
    (restore_saved i app saved).sort_mode = app.sort_mode ∧
    (restore_saved i app saved).saves = app.saves ∧
    (restore_saved i app saved).closing_ids = app.closing_ids ∧
    (restore_saved i app saved).freed_ids = app.freed_ids := by
  induction saved with
  | nil => intro app i; exact ⟨rfl, rfl, rfl, rfl, rfl⟩
  | cons s rest ih => intro app i; exact ih (create_subtab app i s.name s.working_dir) i

theorem activate_saved_index_other (app : AppState) (i : Nat) (sas : Int) :
    (activate_saved_index app i sas).active_project = app.active_project ∧
    (activate_saved_index app i sas).sort_mode = app.sort_mode ∧
    (activate_saved_index app i sas).saves = app.saves ∧
    (activate_saved_index app i sas).closing_ids = app.closing_ids ∧
    (activate_saved_index app i sas).freed_ids = app.freed_ids := by
  unfold activate_saved_index
  split
  · exact ⟨rfl, rfl, rfl, rfl, rfl⟩
  · split
    · split
      · exact ⟨rfl, rfl, rfl, rfl, rfl⟩
      · exact ⟨rfl, rfl, rfl, rfl, rfl⟩
    · exact ⟨rfl, rfl, rfl, rfl, rfl⟩

theorem materialize_saved_other (app1 : AppState) (i : Nat) (p : Project) :
    (materialize_saved app1 i p).active_project = app1.active_project ∧
    (materialize_saved app1 i p).sort_mode = app1.sort_mode ∧
    (materialize_saved app1 i p).saves = app1.saves ∧
    (materialize_saved app1 i p).closing_ids = app1.closing_ids ∧
    (materialize_saved app1 i p).freed_ids = app1.freed_ids := by
  have hr := restore_saved_other p.saved_subtabs app1 i
  have ha := activate_saved_index_other
    (set_restored_counter (restore_saved i app1 p.saved_subtabs) i
      (p.saved_subtabs.length : Int)) i p.saved_active_subtab
  refine ⟨?_, ?_, ?_, ?_, ?_⟩
  · show (activate_saved_index _ i p.saved_active_subtab).active_project = _
    rw [ha.1]
    exact hr.1
  · show (activate_saved_index _ i p.saved_active_subtab).sort_mode = _
    rw [ha.2.1]
    exact hr.2.1
  · show (activate_saved_index _ i p.saved_active_subtab).saves = _
    rw [ha.2.2.1]
    exact hr.2.2.1
  · show (activate_saved_index _ i p.saved_active_subtab).closing_ids = _
    rw [ha.2.2.2.1]
    exact hr.2.2.2.1
  · show (activate_saved_index _ i p.saved_active_subtab).freed_ids = _
    rw [ha.2.2.2.2]
    exact hr.2.2.2.2

theorem on_project_selected_other (app : AppState) (i : Nat) (now : Int) :
    (on_project_selected app i now).sort_mode = app.sort_mode ∧
    (on_project_selected app i now).saves = app.saves ∧
    (on_project_selected app i now).closing_ids = app.closing_ids ∧
    (on_project_selected app i now).freed_ids = app.freed_ids := by
  unfold on_project_selected
  split
  · exact ⟨rfl, rfl, rfl, rfl⟩
  · split
    · exact ⟨rfl, rfl, rfl, rfl⟩
    · next p heq =>
      split
      · split
        · have hm := materialize_saved_other (bump_last_used app i now) i p
          exact ⟨hm.2.1, hm.2.2.1, hm.2.2.2.1, hm.2.2.2.2⟩
        · exact ⟨rfl, rfl, rfl, rfl⟩
      · exact ⟨rfl, rfl, rfl, rfl⟩

/-- The selection handler always leaves its row's project active. -/
theorem on_project_selected_active (app : AppState) (i : Nat) (now : Int) (p0 : Project)
    (hp : app.projects[i]? = some p0) :
    (on_project_selected app i now).active_project = some i := by
  have hb : (bump_last_used app i now).projects[i]? =
      some { p0 with last_used := now } := by
    rw [(bump_last_used_spec app i now).2.2, hp]
    rfl
  unfold on_project_selected
  rw [hp, hb]
  split
  · next heq => cases heq
  · next val heq =>
    injection heq with heq
    subst heq
    split
    · next heq2 => cases heq2
    · next p2 heq2 =>
      injection heq2 with heq2
      subst heq2
      split
      · split
        · rw [(materialize_saved_other (bump_last_used app i now) i _).1]
          rfl
        · rfl
      · rfl

/-- `on_project_selected` preserves the mutual-exclusivity invariant. -/
theorem on_project_selected_inv (app : AppState) (i : Nat) (now : Int) (h : app_inv app) :
    app_inv (on_project_selected app i now) := by
  cases hpi : app.projects[i]? with
  | none =>
    unfold on_project_selected
    rw [hpi]
    exact h
  | some p0 =>
    have hspec := on_project_selected_spec app i now p0 hpi
    obtain ⟨q, hq, hbr⟩ := hspec.2.2
    intro p hp
    obtain ⟨j, hj⟩ := List.getElem?_of_mem hp
    by_cases hji : j = i
    · subst hji
      rw [hq] at hj
      injection hj with hj
      subst hj
      have hp0inv := h p0 (List.getElem?_mem hpi)
      rcases hbr with ⟨hinit, rfl⟩ | ⟨hinit, hsv, rfl⟩ | ⟨hinit, hsv, h1, h2, h3, _, _, _, _⟩
      · exact ⟨fun _ => ⟨(hp0inv.1 hinit).1, (hp0inv.1 hinit).2⟩,
          fun hcon => hp0inv.2 hcon⟩
      · exact ⟨fun _ => ⟨by simp, hsv⟩, fun hcon => by cases hcon⟩
      · refine ⟨fun _ => ⟨?_, h2⟩, fun hcon => by rw [h1] at hcon; cases hcon⟩
        have hsub0 : p0.subtabs = [] := hp0inv.2 hinit
        intro hcon
        rw [hcon] at h3
        rw [hsub0] at h3
        simp at h3
        exact hsv (List.length_eq_zero.mp h3.symm)
    · rw [hspec.2.1 j hji] at hj
      exact h p (List.getElem?_mem hj)

theorem create_project_true_projects (app : AppState) (name path : String) (now : Int) :
    (create_project app name path true now).projects =
      app.projects ++
        [{ fresh_project (app.projects.length : Int) name path with
           subtabs := [⟨app.next_id, "Tab 1", none⟩],
           active_subtab := some app.next_id, spawn_requests := 1,
           subtab_counter := 1, initialized := true, last_used := now }] := by
  have hcore : (mark_first_tab
      (create_subtab (append_project app name path) app.projects.length "Tab 1" path)
      app.projects.length).projects =
      app.projects ++
        [{ fresh_project (app.projects.length : Int) name path with
           subtabs := [⟨app.next_id, "Tab 1", none⟩],
           active_subtab := some app.next_id, spawn_requests := 1,
           subtab_counter := 1, initialized := true }] := by
    show update_nth
        (update_nth (app.projects ++ [fresh_project (app.projects.length : Int) name path])
          app.projects.length _)
        app.projects.length _ = _
    rw [update_nth_append_length, update_nth_append_length]
    rfl
  have hpi : (mark_first_tab
      (create_subtab (append_project app name path) app.projects.length "Tab 1" path)
      app.projects.length).projects[app.projects.length]? =
      some { fresh_project (app.projects.length : Int) name path with
             subtabs := [⟨app.next_id, "Tab 1", none⟩],
             active_subtab := some app.next_id, spawn_requests := 1,
             subtab_counter := 1, initialized := true } := by
    rw [hcore]
    exact getElem?_append_length _ _
  have hspec := on_project_selected_spec
    (mark_first_tab
      (create_subtab (append_project app name path) app.projects.length "Tab 1" path)
      app.projects.length) app.projects.length now _ hpi
  obtain ⟨q, hq, hbr⟩ := hspec.2.2
  have hq' : q = { fresh_project (app.projects.length : Int) name path with
      subtabs := [⟨app.next_id, "Tab 1", none⟩],
      active_subtab := some app.next_id, spawn_requests := 1,
      subtab_counter := 1, initialized := true, last_used := now } := by
    rcases hbr with ⟨_, rfl⟩ | ⟨hcon, _, _⟩ | ⟨hcon, _⟩
    · rfl
    · cases hcon
    · cases hcon
  subst hq'
  show (on_project_selected _ app.projects.length now).projects = _
  apply List.ext_getElem?
  intro n
  by_cases hn : n = app.projects.length
  · subst hn
    rw [hq, getElem?_append_length]
  · rw [hspec.2.1 n hn, hcore]
    exact getElem?_append_singleton_ne _ _ _ _ hn

theorem remove_nth_subset {α : Type} (l : List α) (n : Nat) :
    ∀ x ∈ remove_nth l n, x ∈ l := by
  induction l generalizing n with
  | nil => intro x hx; cases hx
  | cons y ys ih =>
    cases n with
    | zero =>
      intro x hx
      exact List.mem_cons_of_mem _ hx
    | succ m =>
      intro x hx
      rcases hx with _ | hx
      · exact List.mem_cons_self _ _
      · exact List.mem_cons_of_mem _ (ih m _ (by assumption))

/-- The adjacent-activation step touches only `active_subtab`. -/
theorem close_step_adjacent_fields (p : Project) (sid : Nat) :
    (close_step_adjacent p sid).subtabs = p.subtabs ∧
    (close_step_adjacent p sid).saved_subtabs = p.saved_subtabs ∧
    (close_step_adjacent p sid).initialized = p.initialized ∧
    (close_step_adjacent p sid).name = p.name ∧
    (close_step_adjacent p sid).path = p.path ∧
    (close_step_adjacent p sid).insert_order = p.insert_order ∧
    (close_step_adjacent p sid).last_used = p.last_used := by
  unfold close_step_adjacent
  split
  · split <;> exact ⟨rfl, rfl, rfl, rfl, rfl, rfl, rfl⟩
  · exact ⟨rfl, rfl, rfl, rfl, rfl, rfl, rfl⟩

/-- Net effect of a close on the project record: the subtab is removed,
the project reverts to uninitialized exactly when it was the last one,
and all other persistent fields are untouched. -/
theorem closed_project_fields (p : Project) (sid : Nat) :
    (closed_project p sid).subtabs = remove_first_subtab p.subtabs sid ∧
    (closed_project p sid).saved_subtabs = p.saved_subtabs ∧
    (closed_project p sid).name = p.name ∧
    (closed_project p sid).path = p.path ∧
    (closed_project p sid).insert_order = p.insert_order ∧
    (closed_project p sid).last_used = p.last_used ∧
    (p.subtabs.length = 1 → (closed_project p sid).initialized = false) ∧
    (p.subtabs.length ≠ 1 → (closed_project p sid).initialized = p.initialized) := by
  obtain ⟨h1, h2, h3, h4, h5, h6, h7⟩ := close_step_adjacent_fields p sid
  unfold closed_project close_step_uninit close_step_clear_active close_step_remove
  split
  · next hwl =>
    have hlen : p.subtabs.length = 1 := by simpa using hwl
    split
    · exact ⟨by rw [h1], h2, h4, h5, h6, h7, fun _ => rfl, fun hne => absurd hlen hne⟩
    · exact ⟨by rw [h1], h2, h4, h5, h6, h7, fun _ => rfl, fun hne => absurd hlen hne⟩
  · next hwl =>
    have hlen : p.subtabs.length ≠ 1 := by simpa using hwl
    split
    · exact ⟨by rw [h1], h2, h4, h5, h6, h7, fun heq => absurd heq hlen, fun _ => h3⟩
    · exact ⟨by rw [h1], h2, h4, h5, h6, h7, fun heq => absurd heq hlen, fun _ => h3⟩

/-- Index-by-index behavior of a non-guarded `close_subtab`. -/
theorem close_subtab_spec (app : AppState) (i : Nat) (sid : Nat) (p0 : Project)
    (hp : app.projects[i]? = some p0) (hguard : sid ∉ app.closing_ids)
    (hfind : (find_subtab p0 sid).isSome = true) :
    (close_subtab app i sid).projects.length = app.projects.length ∧
    (∀ j, j ≠ i → (close_subtab app i sid).projects[j]? = app.projects[j]?) ∧
    (close_subtab app i sid).projects[i]? = some (closed_project p0 sid) ∧
    (close_subtab app i sid).saves = app.saves + 1 ∧
    (close_subtab app i sid).closing_ids = app.closing_ids ++ [sid] ∧
    (close_subtab app i sid).freed_ids = app.freed_ids ++ [sid] ∧
    (close_subtab app i sid).spawn_log = app.spawn_log ∧
    (close_subtab app i sid).next_id = app.next_id ∧
    (close_subtab app i sid).active_project = app.active_project := by
  have hnn : ¬((find_subtab p0 sid).isNone = true) := by
    cases hfs : find_subtab p0 sid with
    | none => rw [hfs] at hfind; cases hfind
    | some st => simp
  unfold close_subtab
  rw [if_neg hguard]
  split
  · next heq => rw [hp] at heq; cases heq
  · next p heq =>
    rw [hp] at heq
    injection heq with heq
    subst heq
    rw [if_neg hnn]
    refine ⟨update_nth_length _ _ _, fun j hj => getElem?_update_nth_ne _ _ _ _ hj,
      ?_, rfl, rfl, rfl, rfl, rfl, rfl⟩
    show (update_nth app.projects i _)[i]? = _
    rw [getElem?_update_nth_self, hp]
    rfl

/-- A closed project keeps the invariant: a live subtab implies the
project was initialized with no pending descriptors, and removing the
last subtab flips it to a clean uninitialized state. -/
theorem closed_project_inv (p : Project) (sid : Nat) (hinv : proj_inv p)
    (hmem : ∃ st ∈ p.subtabs, st.id = sid) : proj_inv (closed_project p sid) := by
  obtain ⟨hf1, hf2, _, _, _, _, hf7, hf8⟩ := closed_project_fields p sid
  have hne : p.subtabs ≠ [] := by
    obtain ⟨st, hst, _⟩ := hmem
    exact List.ne_nil_of_mem hst
  have hinit : p.initialized = true := by
    cases hpi : p.initialized
    · exact absurd (hinv.2 hpi) hne
    · rfl
  have hsaved : p.saved_subtabs = [] := (hinv.1 hinit).2
  have hlen := remove_first_subtab_length p.subtabs sid hmem
  by_cases hl : p.subtabs.length = 1
  · constructor
    · intro hcon
      rw [hf7 hl] at hcon
      cases hcon
    · intro _
      rw [hf1]
      have : (remove_first_subtab p.subtabs sid).length = 0 := by omega
      exact List.length_eq_zero.mp this
  · constructor
    · intro _
      refine ⟨?_, by rw [hf2, hsaved]⟩
      rw [hf1]
      intro hcon
      have h0 : (remove_first_subtab p.subtabs sid).length = 0 := by rw [hcon]; rfl
      have hpos : p.subtabs.length ≠ 0 := by
        intro hz
        exact hne (List.length_eq_zero.mp hz)
      omega
    · intro hcon
      rw [hf8 hl, hinit] at hcon
      cases hcon

/-- `close_subtab` preserves the mutual-exclusivity invariant. -/
theorem close_preserves_inv (app : AppState) (i sid : Nat) (h : app_inv app) :
    app_inv (close_subtab app i sid) := by
  by_cases hg : sid ∈ app.closing_ids
  · unfold close_subtab
    rw [if_pos hg]
    exact h
  · cases hpi : app.projects[i]? with
    | none =>
      unfold close_subtab
      rw [if_neg hg, hpi]
      exact h
    | some p0 =>
      by_cases hfs : (find_subtab p0 sid).isSome = true
      · have hspec := close_subtab_spec app i sid p0 hpi hg hfs
        intro p hp
        have hj := List.getElem?_of_mem hp
        obtain ⟨j, hj⟩ := hj
        by_cases hji : j = i
        · subst hji
          rw [hspec.2.2.1] at hj
          injection hj with hj
          subst hj
          exact closed_project_inv p0 sid (h p0 (List.getElem?_mem hpi))
            ((find_subtab_isSome_iff p0 sid).mp hfs)
        · rw [hspec.2.1 j hji] at hj
          exact h p (List.getElem?_mem hj)
      · have hfn : (find_subtab p0 sid).isNone = true := by
          cases hfo : find_subtab p0 sid with
          | none => rfl
          | some st => rw [hfo] at hfs; exact absurd rfl hfs
        unfold close_subtab
        rw [if_neg hg, hpi]
        split
        · next heq => cases heq
        · next p heq =>
          injection heq with heq
          subst heq
          rw [if_pos hfn]
          exact h

/-- Every lifecycle event preserves the mutual-exclusivity invariant. -/
theorem step_preserves_inv (app : AppState) (op : Op) (h : app_inv app) :
    app_inv (step app op) := by
  cases op with
  | opCreateProject name path init_b now =>
    cases init_b with
    | false =>
      show app_inv (create_project app name path false now)
      intro p hp
      rw [create_project_false_projects] at hp
      exact proj_inv_append h (fresh_project_inv _ _ _) p hp
    | true =>
      show app_inv (create_project app name path true now)
      intro p hp
      rw [create_project_true_projects] at hp
      refine proj_inv_append h ⟨fun _ => ⟨by simp, rfl⟩, fun hcon => ?_⟩ p hp
      cases hcon
  | opSelectProject i now =>
    exact on_project_selected_inv app i now h
  | opAddSubtab i =>
    show app_inv (on_add_subtab_clicked app i)
    unfold on_add_subtab_clicked
    split
    · exact h
    · next p0 heq =>
      split
      · next hni =>
        intro p hp
        obtain ⟨j, hj⟩ := List.getElem?_of_mem hp
        have hcl := clear_saved_spec app i
        have hcs := create_subtab_spec (clear_saved app i) i "Tab 1" p0.path
        have hmf := mark_first_tab_spec (create_subtab (clear_saved app i) i "Tab 1" p0.path) i
        by_cases hji : j = i
        · subst hji
          rw [hmf.2.2, hcs.2.2, hcl.2.2, heq] at hj
          injection hj with hj
          subst hj
          exact ⟨fun _ => ⟨by simp, rfl⟩, fun hcon => by cases hcon⟩
        · rw [hmf.2.1 j hji, hcs.2.1 j hji, hcl.2.1 j hji] at hj
          exact h p (List.getElem?_mem hj)
      · next hni =>
        intro p hp
        obtain ⟨j, hj⟩ := List.getElem?_of_mem hp
        have hbc := bump_counter_spec app i
        have hcs := create_subtab_spec (bump_counter app i) i
          ("Tab " ++ toString (p0.subtab_counter + 1)) p0.path
        have hinit : p0.initialized = true := by
          cases hpi : p0.initialized
          · rw [hpi] at hni; simp at hni
          · rfl
        have hp0inv := h p0 (List.getElem?_mem heq)
        by_cases hji : j = i
        · subst hji
          rw [hcs.2.2, hbc.2.2, heq] at hj
          injection hj with hj
          subst hj
          exact ⟨fun _ => ⟨by simp, (hp0inv.1 hinit).2⟩,
            fun hcon => by rw [hinit] at hcon; cases hcon⟩
        · rw [hcs.2.1 j hji, hbc.2.1 j hji] at hj
          exact h p (List.getElem?_mem hj)
  | opCloseSubtab i sid => exact close_preserves_inv app i sid h
  | opChildExited i sid =>
    show app_inv (on_terminal_child_exited app i sid)
    unfold on_terminal_child_exited
    split
    · exact h
    · exact close_preserves_inv app i sid h
  | opRemoveProject now =>
    show app_inv (on_remove_project_clicked app now)
    unfold on_remove_project_clicked
    split
    · exact h
    · split
      · exact h
      · split
        · intro p hp
          exact h p (remove_nth_subset _ _ _ hp)
        · refine on_project_selected_inv _ 0 now ?_
          intro p hp
          exact h p (remove_nth_subset _ _ _ hp)
  | opSortClicked => exact fun p hp => h p hp

/-! ### Load-path lemmas -/

theorem attach_last_used_fields (fields : List (String × Json)) (p : Project) :
    (attach_last_used fields p).initialized = p.initialized ∧
    (attach_last_used fields p).subtabs = p.subtabs ∧
    (attach_last_used fields p).name = p.name ∧
    (attach_last_used fields p).path = p.path ∧
    (attach_last_used fields p).insert_order = p.insert_order ∧
    (attach_last_used fields p).saved_subtabs = p.saved_subtabs ∧
    (attach_last_used fields p).spawn_requests = p.spawn_requests := by
  unfold attach_last_used
  split <;> exact ⟨rfl, rfl, rfl, rfl, rfl, rfl, rfl⟩

theorem attach_restore_data_fields (path : String) (fields : List (String × Json))
    (p : Project) :
    (attach_restore_data path fields p).initialized = p.initialized ∧
    (attach_restore_data path fields p).subtabs = p.subtabs ∧
    (attach_restore_data path fields p).name = p.name ∧
    (attach_restore_data path fields p).path = p.path ∧
    (attach_restore_data path fields p).insert_order = p.insert_order ∧
    (attach_restore_data path fields p).spawn_requests = p.spawn_requests := by
  obtain ⟨h1, h2, h3, h4, h5, _, h7⟩ := attach_last_used_fields fields p
  unfold attach_restore_data
  split
  · exact ⟨h1, h2, h3, h4, h5, h7⟩
  · exact ⟨h1, h2, h3, h4, h5, h7⟩

theorem load_one_projects (app : AppState) (fields : List (String × Json))
    (name path : String) :
    (load_one app fields name path).projects =
      app.projects ++
        [attach_restore_data path fields (fresh_project (app.projects.length : Int) name path)] := by
  show update_nth (create_project app name path false 0).projects
      ((create_project app name path false 0).projects.length - 1)
      (attach_restore_data path fields) = _
  rw [create_project_false_projects]
  have h1 : (app.projects ++ [fresh_project (app.projects.length : Int) name path]).length - 1 =
      app.projects.length := by simp
  rw [h1, update_nth_append_length]

theorem load_one_other_fields (app : AppState) (fields : List (String × Json))
    (name path : String) :
    (load_one app fields name path).spawn_log = app.spawn_log ∧
    (load_one app fields name path).saves = app.saves ∧
    (load_one app fields name path).next_id = app.next_id ∧
    (load_one app fields name path).sort_mode = app.sort_mode ∧
    (load_one app fields name path).closing_ids = app.closing_ids ∧
    (load_one app fields name path).freed_ids = app.freed_ids :=
  ⟨rfl, rfl, rfl, rfl, rfl, rfl⟩

theorem attached_fresh_inv (k : Int) (name path : String) (fields : List (String × Json)) :
    proj_inv (attach_restore_data path fields (fresh_project k name path)) := by
  obtain ⟨h1, h2, _, _, _, _⟩ := attach_restore_data_fields path fields (fresh_project k name path)
  constructor
  · intro hcon
    rw [h1] at hcon
    cases hcon
  · intro _
    rw [h2]
    rfl

theorem load_projects_inv (js : List Json) :
    ∀ app : AppState, app_inv app → app_inv (load_projects app js) := by
  induction js with
  | nil => intro app h; exact h
  | cons j rest ih =>
    intro app h
    unfold load_projects
    split
    · exact ih app h
    · split
      · refine ih _ ?_
        intro p hp
        rw [load_one_projects] at hp
        exact proj_inv_append h (attached_fresh_inv _ _ _ _) p hp
      · exact ih app h

/-- The final selection of the load path preserves the invariant: it
either does nothing or runs `on_project_selected`, which preserves
it. -/
theorem select_loaded_active_inv (app : AppState) (idx now : Int) (h : app_inv app) :
    app_inv (select_loaded_active app idx now) := by
  unfold select_loaded_active
  split
  · exact on_project_selected_inv _ _ now h
  · exact h

theorem set_loaded_sort_mode_fields (app : AppState) (root_fields : List (String × Json)) :
    (set_loaded_sort_mode app root_fields).projects = app.projects ∧
    (set_loaded_sort_mode app root_fields).spawn_log = app.spawn_log ∧
    (set_loaded_sort_mode app root_fields).active_project = app.active_project := by
  unfold set_loaded_sort_mode
  split <;> exact ⟨rfl, rfl, rfl⟩

theorem load_session_inv (root : Option Json) (app : AppState) (now : Int)
    (h : app_inv app) : app_inv (load_session root app now) := by
  unfold load_session
  split
  · exact h
  · split
    · exact h
    · next root_fields heq =>
      split
      · refine select_loaded_active_inv _ _ now ?_
        refine load_projects_inv _ (set_loaded_sort_mode app root_fields) ?_
        intro q hq
        rw [(set_loaded_sort_mode_fields app root_fields).1] at hq
        exact h q hq
      · intro p hp
        rw [(set_loaded_sort_mode_fields app root_fields).1] at hp
        exact h p hp

/-! ### C2: the mutual-exclusivity invariant, for all reachable states -/

/-- Claim C2: in every state reachable from a fresh application by a
session load followed by any sequence of completed lifecycle events
(project creation, selection, tab adds, user or process-exit closes,
project removal, sort toggles), every project either is initialized with
at least one live subtab and no pending-restore descriptors, or is
uninitialized with no live subtabs. -/
theorem mutual_exclusivity_invariant (root : Option Json) (now : Int) (ops : List Op) :
    ∀ p ∈ (run (load_session root fresh_app now) ops).projects,
      (p.initialized = true → p.subtabs ≠ [] ∧ p.saved_subtabs = []) ∧
      (p.initialized = false → p.subtabs = []) := by
  have h0 : app_inv fresh_app := by intro p hp; cases hp
  have h1 : app_inv (load_session root fresh_app now) :=
    load_session_inv root fresh_app now h0
  suffices hall : ∀ (ops2 : List Op) (app : AppState), app_inv app → app_inv (run app ops2) by
    exact hall ops _ h1
  intro ops2
  induction ops2 with
  | nil => intro app h; exact h
  | cons op rest ih =>
    intro app h
    exact ih _ (step_preserves_inv app op h)

/-- Witness for C2: a freshly created initialized project satisfies the
invariant in the reachable state that contains it. -/
theorem mutual_exclusivity_invariant_witness :
    (c2_witness_project ∈
      (run (load_session none fresh_app 0) [Op.opCreateProject "a" "/a" true 0]).projects) ∧
    (c2_witness_project.initialized = true →
      c2_witness_project.subtabs ≠ [] ∧ c2_witness_project.saved_subtabs = []) :=
  ⟨by decide, mutual_exclusivity_invariant none 0 [Op.opCreateProject "a" "/a" true 0]
    c2_witness_project (by decide) |>.1⟩

/-! ### C3: lazy initialization -/

theorem step_spawn_log (app : AppState) (op : Op) (h : activation_free op) :
    (step app op).spawn_log = app.spawn_log := by
  cases op with
  | opCreateProject name path init_b now =>
    have hb : init_b = false := h
    subst hb
    rfl
  | opSelectProject i now => cases h
  | opAddSubtab i => cases h
  | opRemoveProject now => cases h
  | opCloseSubtab i sid =>
    show (close_subtab app i sid).spawn_log = app.spawn_log
    unfold close_subtab
    split
    · rfl
    · split
      · rfl
      · split
        · rfl
        · rfl
  | opChildExited i sid =>
    show (on_terminal_child_exited app i sid).spawn_log = app.spawn_log
    unfold on_terminal_child_exited close_subtab
    split
    · rfl
    · split
      · rfl
      · split
        · rfl
        · rfl
  | opSortClicked => rfl

theorem load_projects_spawn (js : List Json) :
    ∀ app : AppState, (load_projects app js).spawn_log = app.spawn_log ∧
      ((∀ p ∈ app.projects, p.spawn_requests = 0) →
        ∀ p ∈ (load_projects app js).projects, p.spawn_requests = 0) := by
  induction js with
  | nil => intro app; exact ⟨rfl, fun h => h⟩
  | cons j rest ih =>
    intro app
    unfold load_projects
    split
    · exact ih app
    · split
      · next fields _ name path _ _ =>
        constructor
        · rw [(ih _).1, (load_one_other_fields _ _ _ _).1]
        · intro h
          refine (ih _).2 ?_
          intro p hp
          rw [load_one_projects] at hp
          rcases List.mem_append.mp hp with hm | hm
          · exact h p hm
          · have := List.mem_singleton.mp hm
            subst this
            rw [(attach_restore_data_fields _ _ _).2.2.2.2.2]
            rfl
      · exact ih app

/-- Counterexample to C3 as stated: loading a session with one saved
project issues a spawn during the load itself — the final
`gtk_list_box_select_row` selection runs `on_project_selected` on the
restored active project, which (uninitialized, with no pending
descriptors here) creates its default "Tab 1" terminal, so the spawn
count is already nonzero when `load_session` returns. -/
theorem lazy_initialization_counterexample :
    0 < (load_session (some (Json.jobj [("projects", Json.jarr
        [Json.jobj [("name", Json.jstr "a"), ("path", Json.jstr "/a")]])]))
      fresh_app 7).projects.length ∧
    (load_session (some (Json.jobj [("projects", Json.jarr
        [Json.jobj [("name", Json.jstr "a"), ("path", Json.jstr "/a")]])]))
      fresh_app 7).spawn_log = ["/a"] := by
  constructor
  · decide
  · decide

/-- Claim C3, amended: the project-restore loop of `load_session` spawns
nothing — restored projects are created uninitialized, holding pending
descriptors only.  But the selection at the end of the load runs
`on_project_selected` on the restored active project, spawning exactly
the terminals of that project during the load; every project the load leaves
non-active still has zero spawn requests, and the spawn log stays
unchanged under further events that never select a row (directly, on
`create_project(..., TRUE)`, or automatically after a removal) and never
add a tab. -/
theorem lazy_initialization_amended (root : Option Json) (now : Int) (ops : List Op)
    (hops : ∀ op ∈ ops, activation_free op) :
    (∀ (docs : List Json) (app : AppState),
      (load_projects app docs).spawn_log = app.spawn_log) ∧
    (∀ j p, (load_session root fresh_app now).active_project ≠ some j →
      (load_session root fresh_app now).projects[j]? = some p →
      p.spawn_requests = 0) ∧
    (run (load_session root fresh_app now) ops).spawn_log =
      (load_session root fresh_app now).spawn_log := by
  refine ⟨fun docs app => (load_projects_spawn docs app).1, ?_, ?_⟩
  · unfold load_session
    split
    · intro j p _ hp
      simp [fresh_app] at hp
    · split
      · intro j p _ hp
        simp [fresh_app] at hp
      · next root_fields heq =>
        split
        · have hall : ∀ q ∈ (load_projects (set_loaded_sort_mode fresh_app root_fields)
              (getArrayMember root_fields "projects")).projects, q.spawn_requests = 0 := by
            refine (load_projects_spawn _ _).2 ?_
            intro q hq
            rw [(set_loaded_sort_mode_fields _ _).1] at hq
            cases hq
          generalize hS : load_projects (set_loaded_sort_mode fresh_app root_fields)
              (getArrayMember root_fields "projects") = S1 at hall ⊢
          unfold select_loaded_active
          split
          · next hk =>
            have hne : S1.projects[(loaded_active_index root_fields).toNat]? ≠ none := by
              intro hc
              have h1 := List.getElem?_eq_none_iff.mp hc
              have h2 := hk.2
              omega
            obtain ⟨p0, hp0⟩ := Option.ne_none_iff_exists'.mp hne
            have hact := on_project_selected_active
              { S1 with active_project := some (loaded_active_index root_fields).toNat }
              (loaded_active_index root_fields).toNat now p0 hp0
            have hspec := on_project_selected_spec
              { S1 with active_project := some (loaded_active_index root_fields).toNat }
              (loaded_active_index root_fields).toNat now p0 hp0
            intro j p hjact hp
            have hjk : j ≠ (loaded_active_index root_fields).toNat := by
              intro hc
              subst hc
              exact hjact hact
            rw [hspec.2.1 j hjk] at hp
            exact hall p (List.getElem?_mem hp)
          · intro j p hjact hp
            exact hall p (List.getElem?_mem hp)
        · intro j p _ hp
          rw [(set_loaded_sort_mode_fields _ _).1] at hp
          simp [fresh_app] at hp
  · suffices hrun : ∀ (ops2 : List Op) (app : AppState), (∀ op ∈ ops2, activation_free op) →
        (run app ops2).spawn_log = app.spawn_log by
      exact hrun ops _ hops
    intro ops2
    induction ops2 with
    | nil => intro app _; rfl
    | cons op rest ih =>
      intro app hall
      show (run (step app op) rest).spawn_log = _
      rw [ih _ (fun o ho => hall o (List.mem_cons_of_mem _ ho)),
        step_spawn_log app op (hall op (List.mem_cons_self _ _))]

/-- Witness for the amended C3 at a concrete two-project session: the
non-active restored project stays unspawned and a sort toggle plus a
stray close keep the spawn log unchanged. -/
theorem lazy_initialization_amended_witness :
    (∀ (docs : List Json) (app : AppState),
      (load_projects app docs).spawn_log = app.spawn_log) ∧
    (∀ j p, (load_session (some (Json.jobj [("projects", Json.jarr
          [Json.jobj [("name", Json.jstr "a"), ("path", Json.jstr "/a")],
           Json.jobj [("name", Json.jstr "b"), ("path", Json.jstr "/b")]])]))
        fresh_app 7).active_project ≠ some j →
      (load_session (some (Json.jobj [("projects", Json.jarr
          [Json.jobj [("name", Json.jstr "a"), ("path", Json.jstr "/a")],
           Json.jobj [("name", Json.jstr "b"), ("path", Json.jstr "/b")]])]))
        fresh_app 7).projects[j]? = some p →
      p.spawn_requests = 0) ∧
    (run (load_session (some (Json.jobj [("projects", Json.jarr
          [Json.jobj [("name", Json.jstr "a"), ("path", Json.jstr "/a")],
           Json.jobj [("name", Json.jstr "b"), ("path", Json.jstr "/b")]])]))
        fresh_app 7) [Op.opSortClicked, Op.opCloseSubtab 0 99]).spawn_log =
      (load_session (some (Json.jobj [("projects", Json.jarr
          [Json.jobj [("name", Json.jstr "a"), ("path", Json.jstr "/a")],
           Json.jobj [("name", Json.jstr "b"), ("path", Json.jstr "/b")]])]))
        fresh_app 7).spawn_log :=
  lazy_initialization_amended (some (Json.jobj [("projects", Json.jarr
      [Json.jobj [("name", Json.jstr "a"), ("path", Json.jstr "/a")],
       Json.jobj [("name", Json.jstr "b"), ("path", Json.jstr "/b")]])]))
    7 [Op.opSortClicked, Op.opCloseSubtab 0 99]
    (by
      intro op hop
      rcases List.mem_cons.mp hop with rfl | hop
      · trivial
      · rcases List.mem_cons.mp hop with rfl | hop
        · trivial
        · cases hop)

/-! ### C1: session round-trip -/

theorem parsed_of_saved_pairs (path : String) (l : List SavedSubTab) :
    List.filterMap ((fun j =>
      match getObjectElement j with
      | none => none
      | some sf =>
        some (SavedSubTab.mk ((getStringMember sf "name").getD "Tab")
                             ((getStringMember sf "working_dir").getD path))) ∘
      (fun s => Json.jobj [("name", Json.jstr s.name),
        ("working_dir", Json.jstr s.working_dir)])) l = l := by
  induction l with
  | nil => rfl
  | cons s rest ih =>
    show _ :: _ = _ :: _
    rw [ih]
    rfl

theorem parsed_of_subtab_pairs (p : Project) (l : List SubTab) :
    List.filterMap ((fun j =>
      match getObjectElement j with
      | none => none
      | some sf =>
        some (SavedSubTab.mk ((getStringMember sf "name").getD "Tab")
                             ((getStringMember sf "working_dir").getD p.path))) ∘
      (fun st => Json.jobj [("name", Json.jstr st.name),
        ("working_dir", Json.jstr (cwd_of st p))])) l =
      l.map (fun st => SavedSubTab.mk st.name (cwd_of st p)) := by
  induction l with
  | nil => rfl
  | cons st rest ih =>
    show _ :: _ = _ :: _
    rw [ih]
    rfl

/-- Re-parsing the saved form of one project reconstructs exactly the
`restored_project`. -/
theorem attach_save_round (k : Int) (p : Project) :
    attach_restore_data p.path (save_project_fields p) (fresh_project k p.name p.path) =
      restored_project k p := by
  by_cases hinit : p.initialized = true
  · simp [save_project_fields, hinit, attach_restore_data, attach_last_used,
      parsed_saved_subtabs, hasMember, getMember, getIntMember, getArrayMember,
      restored_project, restored_saved, restored_active, fresh_project,
      parsed_of_subtab_pairs]
  · have hinit' : p.initialized = false := by
      cases hpi : p.initialized
      · rfl
      · exact absurd hpi hinit
    by_cases hsv : p.saved_subtabs = []
    · simp [save_project_fields, hinit', hsv, attach_restore_data, attach_last_used,
        parsed_saved_subtabs, hasMember, getMember, getIntMember, getArrayMember,
        restored_project, restored_saved, restored_active, fresh_project]
    · simp [save_project_fields, hinit', hsv, attach_restore_data, attach_last_used,
        parsed_saved_subtabs, hasMember, getMember, getIntMember, getArrayMember,
        restored_project, restored_saved, restored_active, fresh_project,
        parsed_of_saved_pairs]

theorem restored_list_length (ps : List Project) : ∀ k, (restored_list k ps).length = ps.length := by
  induction ps with
  | nil => intro k; rfl
  | cons p rest ih => intro k; simpa [restored_list] using ih (k + 1)

theorem restored_project_matches (k : Int) (p : Project) :
    round_trip_matches p (restored_project k p) := by
  refine ⟨rfl, rfl, rfl, rfl, ?_⟩
  intro hni hsv
  refine ⟨?_, ?_, rfl⟩
  · show restored_saved p = p.saved_subtabs
    simp [restored_saved, hni]
  · show restored_active p = p.saved_active_subtab
    simp [restored_active, hni, hsv]

theorem restored_list_getElem? (ps : List Project) :
    ∀ k j, (restored_list k ps)[j]? =
      (ps[j]?).map (fun p => restored_project ((k + j : Nat) : Int) p) := by
  induction ps with
  | nil => intro k j; simp [restored_list]
  | cons p rest ih =>
    intro k j
    cases j with
    | zero => simp [restored_list]
    | succ m =>
      have h := ih (k + 1) m
      have harith : (k + 1 + m : Nat) = (k + (m + 1) : Nat) := by omega
      rw [harith] at h
      simpa [restored_list] using h

theorem saved_active_index_nonneg (app : AppState) : 0 ≤ saved_active_index app := by
  unfold saved_active_index
  split
  · split
    · exact Int.ofNat_nonneg _
    · exact le_refl 0
  · exact le_refl 0

theorem saved_active_index_lt (app : AppState) (h : app.projects ≠ []) :
    (saved_active_index app).toNat < app.projects.length := by
  have hpos : 0 < app.projects.length := List.length_pos.mpr h
  unfold saved_active_index
  split
  · next i =>
    split
    · next hlt => simpa using hlt
    · simpa using hpos
  · simpa using hpos

/-- Loading the saved form of a project list appends exactly the
reconstructed projects, in order. -/
theorem load_projects_save (ps : List Project) :
    ∀ app : AppState,
      (load_projects app (ps.map save_project)).projects =
        app.projects ++ restored_list app.projects.length ps ∧
      (load_projects app (ps.map save_project)).sort_mode = app.sort_mode := by
  induction ps with
  | nil => intro app; simp [load_projects, restored_list]
  | cons p rest ih =>
    intro app
    have hobj : getObjectElement (save_project p) = some (save_project_fields p) := rfl
    have hname : getStringMember (save_project_fields p) "name" = some p.name := rfl
    have hpath : getStringMember (save_project_fields p) "path" = some p.path := rfl
    rw [List.map_cons]
    unfold load_projects
    rw [hobj]
    split
    · next heq => cases heq
    · next fields heq =>
      injection heq with heq
      subst heq
      rw [hname, hpath]
      split
      · next name path heqn heqp =>
        injection heqn with heqn
        injection heqp with heqp
        subst heqn
        subst heqp
        have hone : (load_one app (save_project_fields p) p.name p.path).projects =
            app.projects ++ [restored_project (app.projects.length : Int) p] := by
          rw [load_one_projects, attach_save_round]
        have hrec := ih (load_one app (save_project_fields p) p.name p.path)
        constructor
        · rw [hrec.1, hone]
          simp only [List.length_append, List.length_cons, List.length_nil,
            List.append_assoc, List.singleton_append, restored_list]
        · rw [hrec.2, (load_one_other_fields _ _ _ _).2.2.2.1]
      · next h =>
        exact (h p.name p.path rfl rfl).elim

theorem parse_sort_mode_round (m : SortMode) :
    parse_sort_mode (some (sort_mode_string m)) = m := by
  cases m <;> rfl

/-- Counterexample to C1 as stated: the synchronous `::row-selected`
emission of the final selection in `load_session` runs
`on_project_selected` on the restored active project, so at the moment
the load returns that project carries `last_used = now` rather than the
saved value, and its pending descriptors have been consumed into live
subtabs rather than reproduced. -/
theorem session_round_trip_counterexample :
    (∃ q, (load_session (some (save_session_doc c1_witness_app)) fresh_app 99).projects[0]? =
        some q ∧ q.last_used = 99 ∧ q.initialized = true ∧ q.saved_subtabs = [] ∧
        q.subtabs.map (fun s => SubTab.name s) = ["T1", "T2"]) ∧
    ¬ (∀ (j : Nat) (p q : Project), c1_witness_app.projects[j]? = some p →
        (load_session (some (save_session_doc c1_witness_app)) fresh_app 99).projects[j]? =
          some q →
        q.last_used = p.last_used ∧ q.saved_subtabs = p.saved_subtabs) := by
  have hA : ∃ q, (load_session (some (save_session_doc c1_witness_app))
        fresh_app 99).projects[0]? =
      some q ∧ q.last_used = 99 ∧ q.initialized = true ∧ q.saved_subtabs = [] ∧
      q.subtabs.map (fun s => SubTab.name s) = ["T1", "T2"] :=
    ⟨_, rfl, rfl, rfl, rfl, rfl⟩
  refine ⟨hA, ?_⟩
  intro hcon
  obtain ⟨q, hq, hl99, _, _, _⟩ := hA
  have h := hcon 0 _ q rfl hq
  exact absurd (hl99.symm.trans h.1) (by decide)

/-- Claim C1, amended: saving then loading into a fresh application at
time `now` yields the same number of projects in the same manual order,
restores the sort mode, and re-selects the saved active-project index.
Every project other than the selected one round-trips exactly:
identical name, path and `last_used`, reloaded uninitialized, and one
that was uninitialized with pending descriptors gets the same pending
name/working-directory pairs and active-subtab index back with no live
subtabs.  The selected project, however, is activated by the
synchronous row selection at the end of the load: it comes back with
`last_used = now`, initialized, its pending descriptors consumed into
live subtabs. -/
theorem session_round_trip_amended (app : AppState) (now : Int) :
    (load_session (some (save_session_doc app)) fresh_app now).projects.length =
      app.projects.length ∧
    (load_session (some (save_session_doc app)) fresh_app now).sort_mode = app.sort_mode ∧
    (∀ i, app.active_project = some i → i < app.projects.length →
      (load_session (some (save_session_doc app)) fresh_app now).active_project = some i) ∧
    (∀ j p, j ≠ (saved_active_index app).toNat → app.projects[j]? = some p →
      ∃ q, (load_session (some (save_session_doc app)) fresh_app now).projects[j]? =
          some q ∧
        round_trip_matches p q) ∧
    (∀ p, app.projects[(saved_active_index app).toNat]? = some p →
      ∃ q, (load_session (some (save_session_doc app)) fresh_app now).projects[
          (saved_active_index app).toNat]? = some q ∧
        q.name = p.name ∧ q.path = p.path ∧ q.last_used = now ∧
        q.initialized = true ∧ q.saved_subtabs = []) := by
  have hsession : load_session (some (save_session_doc app)) fresh_app now =
      select_loaded_active
        (load_projects
          (set_loaded_sort_mode fresh_app
            [("active_project_index", Json.jint (saved_active_index app)),
             ("sort_mode", Json.jstr (sort_mode_string app.sort_mode)),
             ("projects", Json.jarr (app.projects.map save_project))])
          (app.projects.map save_project))
        (saved_active_index app) now := rfl
  have hsm : set_loaded_sort_mode fresh_app
      [("active_project_index", Json.jint (saved_active_index app)),
       ("sort_mode", Json.jstr (sort_mode_string app.sort_mode)),
       ("projects", Json.jarr (app.projects.map save_project))] =
      { fresh_app with sort_mode := app.sort_mode } := by
    unfold set_loaded_sort_mode
    rw [if_pos (by rfl)]
    show { fresh_app with
           sort_mode := parse_sort_mode (some (sort_mode_string app.sort_mode)) } = _
    rw [parse_sort_mode_round]
  have hses2 : load_session (some (save_session_doc app)) fresh_app now =
      select_loaded_active
        (load_projects { fresh_app with sort_mode := app.sort_mode }
          (app.projects.map save_project))
        (saved_active_index app) now := by
    rw [hsession, hsm]
  have hload := load_projects_save app.projects { fresh_app with sort_mode := app.sort_mode }
  have hloadp : (load_projects { fresh_app with sort_mode := app.sort_mode }
      (app.projects.map save_project)).projects = restored_list 0 app.projects := by
    rw [hload.1]
    rfl
  by_cases hemp : app.projects = []
  · have hcond : ¬ (0 ≤ saved_active_index app ∧
        (saved_active_index app).toNat <
          (load_projects { fresh_app with sort_mode := app.sort_mode }
            (app.projects.map save_project)).projects.length) := by
      intro hc
      have hlen := hc.2
      rw [hloadp, restored_list_length, hemp] at hlen
      simp at hlen
    have hres : load_session (some (save_session_doc app)) fresh_app now =
        load_projects { fresh_app with sort_mode := app.sort_mode }
          (app.projects.map save_project) := by
      rw [hses2]
      unfold select_loaded_active
      rw [if_neg hcond]
    refine ⟨?_, ?_, ?_, ?_, ?_⟩
    · rw [hres, hloadp, restored_list_length]
    · rw [hres, hload.2]
    · intro i _ hlt
      rw [hemp] at hlt
      simp at hlt
    · intro j p _ hp
      rw [hemp] at hp
      simp at hp
    · intro p hp
      rw [hemp] at hp
      simp at hp
  · have hklt : (saved_active_index app).toNat < app.projects.length :=
      saved_active_index_lt app hemp
    have hcond : 0 ≤ saved_active_index app ∧
        (saved_active_index app).toNat <
          (load_projects { fresh_app with sort_mode := app.sort_mode }
            (app.projects.map save_project)).projects.length := by
      refine ⟨saved_active_index_nonneg app, ?_⟩
      rw [hloadp, restored_list_length]
      exact hklt
    have hres : load_session (some (save_session_doc app)) fresh_app now =
        on_project_selected
          { (load_projects { fresh_app with sort_mode := app.sort_mode }
              (app.projects.map save_project)) with
            active_project := some (saved_active_index app).toNat }
          (saved_active_index app).toNat now := by
      rw [hses2]
      unfold select_loaded_active
      rw [if_pos hcond]
    have hne : app.projects[(saved_active_index app).toNat]? ≠ none := by
      intro hc
      have hlen := List.getElem?_eq_none_iff.mp hc
      omega
    obtain ⟨pk, hpk⟩ := Option.ne_none_iff_exists'.mp hne
    have hS1k : (load_projects { fresh_app with sort_mode := app.sort_mode }
        (app.projects.map save_project)).projects[(saved_active_index app).toNat]? =
        some (restored_project ((0 + (saved_active_index app).toNat : Nat) : Int) pk) := by
      rw [hloadp, restored_list_getElem? app.projects 0 (saved_active_index app).toNat, hpk]
      rfl
    have hspec := on_project_selected_spec
      { (load_projects { fresh_app with sort_mode := app.sort_mode }
          (app.projects.map save_project)) with
        active_project := some (saved_active_index app).toNat }
      (saved_active_index app).toNat now _ hS1k
    have hact := on_project_selected_active
      { (load_projects { fresh_app with sort_mode := app.sort_mode }
          (app.projects.map save_project)) with
        active_project := some (saved_active_index app).toNat }
      (saved_active_index app).toNat now _ hS1k
    refine ⟨?_, ?_, ?_, ?_, ?_⟩
    · rw [hres, hspec.1]
      show (load_projects { fresh_app with sort_mode := app.sort_mode }
          (app.projects.map save_project)).projects.length = app.projects.length
      rw [hloadp, restored_list_length]
    · rw [hres, (on_project_selected_other _ _ now).1]
      show (load_projects { fresh_app with sort_mode := app.sort_mode }
          (app.projects.map save_project)).sort_mode = app.sort_mode
      exact hload.2
    · intro i hact2 hlt
      have hidx : saved_active_index app = (i : Int) := by
        simp [saved_active_index, hact2, hlt]
      rw [hres, hact, hidx]
      simp
    · intro j p hj hp
      rw [hres, hspec.2.1 j hj]
      show ∃ q, (load_projects { fresh_app with sort_mode := app.sort_mode }
          (app.projects.map save_project)).projects[j]? = some q ∧ round_trip_matches p q
      rw [hloadp, restored_list_getElem? app.projects 0 j, hp]
      exact ⟨_, rfl, restored_project_matches _ p⟩
    · intro p hp
      rw [hpk] at hp
      injection hp with hppk
      subst hppk
      obtain ⟨q, hq, hbr⟩ := hspec.2.2
      refine ⟨q, ?_, ?_⟩
      · rw [hres]
        exact hq
      · rcases hbr with ⟨hinit, _⟩ | ⟨_, hsv, rfl⟩ | ⟨_, _, hqi, hqs, _, hqn, hqp, _, hql⟩
        · simp [restored_project] at hinit
        · exact ⟨rfl, rfl, rfl, rfl, hsv⟩
        · exact ⟨hqn, hqp, hql, hqi, hqs⟩

/-- Witness for the amended C1 at the concrete one-project state: the
count, sort mode and active index round-trip, and the selected project
comes back activated at the load time with its descriptors consumed. -/
theorem session_round_trip_amended_witness :
    (load_session (some (save_session_doc c1_witness_app)) fresh_app 99).projects.length =
      c1_witness_app.projects.length ∧
    (load_session (some (save_session_doc c1_witness_app)) fresh_app 99).sort_mode =
      c1_witness_app.sort_mode ∧
    (load_session (some (save_session_doc c1_witness_app)) fresh_app 99).active_project =
      some 0 ∧
    (∃ q, (load_session (some (save_session_doc c1_witness_app)) fresh_app 99).projects[
        (saved_active_index c1_witness_app).toNat]? = some q ∧
      q.name = "p" ∧ q.path = "/p" ∧ q.last_used = 99 ∧ q.initialized = true ∧
      q.saved_subtabs = []) := by
  have h := session_round_trip_amended c1_witness_app 99
  obtain ⟨q, hq, hn, hp, hl, hi, hs⟩ := h.2.2.2.2
    { name := "p", path := "/p", subtabs := [], active_subtab := none,
      subtab_counter := 0, initialized := false, last_used := 7,
      insert_order := 0, saved_subtabs := [⟨"T1", "/w1"⟩, ⟨"T2", "/w2"⟩],
      saved_active_subtab := 1, spawn_requests := 0 } rfl
  exact ⟨h.1, h.2.1, h.2.2.1 0 rfl (by decide), q, hq, hn, hp, hl, hi, hs⟩

/-! ### C5: `insert_order` assignment -/

/-- Counterexample to C5 as stated: create three projects, remove the
last, remove the (newly selected) first, create a fourth — the survivor
and the new project both carry `insert_order` 1, because
`create_project` assigns `g_list_length(app->projects)` and removals
never reassign. -/
theorem insert_order_unique_counterexample :
    (run fresh_app [Op.opCreateProject "a" "/a" false 1, Op.opCreateProject "b" "/b" false 2,
      Op.opCreateProject "c" "/c" false 3, Op.opRemoveProject 4, Op.opRemoveProject 5,
      Op.opCreateProject "d" "/d" false 6]).projects.map (fun p => p.insert_order) = [1, 1] ∧
    ¬ List.Pairwise (fun a b => a ≠ b)
      ((run fresh_app [Op.opCreateProject "a" "/a" false 1, Op.opCreateProject "b" "/b" false 2,
        Op.opCreateProject "c" "/c" false 3, Op.opRemoveProject 4, Op.opRemoveProject 5,
        Op.opCreateProject "d" "/d" false 6]).projects.map (fun p => p.insert_order)) := by
  constructor
  · decide
  · decide

theorem create_project_io_map (app : AppState) (name path : String) (b : Bool) (now : Int) :
    (create_project app name path b now).projects.map (fun p => p.insert_order) =
      app.projects.map (fun p => p.insert_order) ++ [(app.projects.length : Int)] := by
  cases b
  · rw [create_project_false_projects]
    simp [fresh_project]
  · rw [create_project_true_projects]
    simp [fresh_project]

/-- Two states with identical projections off `i` and an
`insert_order`-preserving change at `i` have equal `insert_order`
maps. -/
theorem insert_order_map_congr (app app' : AppState) (i : Nat)
    (hlen : app'.projects.length = app.projects.length)
    (hoth : ∀ j, j ≠ i → app'.projects[j]? = app.projects[j]?)
    (hself : ∀ p, app.projects[i]? = some p → ∃ q, app'.projects[i]? = some q ∧
      q.insert_order = p.insert_order) :
    app'.projects.map (fun p => p.insert_order) =
      app.projects.map (fun p => p.insert_order) := by
  apply List.ext_getElem?
  intro n
  simp only [List.getElem?_map]
  by_cases hni : n = i
  · subst hni
    cases hcase : app.projects[n]? with
    | none =>
      have h1 : app.projects.length ≤ n := List.getElem?_eq_none_iff.mp hcase
      have h2 : app'.projects[n]? = none := List.getElem?_eq_none (by omega)
      rw [h2]
    | some p =>
      obtain ⟨q, hq, hio⟩ := hself p hcase
      rw [hq]
      simpa using hio
  · rw [hoth n hni]

theorem on_project_selected_io_map (app : AppState) (i : Nat) (now : Int) :
    (on_project_selected app i now).projects.map (fun p => p.insert_order) =
      app.projects.map (fun p => p.insert_order) := by
  cases hpi : app.projects[i]? with
  | none =>
    unfold on_project_selected
    rw [hpi]
  | some p0 =>
    have hspec := on_project_selected_spec app i now p0 hpi
    obtain ⟨q, hq, hbr⟩ := hspec.2.2
    refine insert_order_map_congr app _ i hspec.1 hspec.2.1 ?_
    intro p hp
    rw [hpi] at hp
    injection hp with hp
    subst hp
    refine ⟨q, hq, ?_⟩
    rcases hbr with ⟨_, rfl⟩ | ⟨_, _, rfl⟩ | ⟨_, _, _, _, _, _, _, hio, _⟩
    · rfl
    · rfl
    · exact hio

theorem close_subtab_io_map (app : AppState) (i sid : Nat) :
    (close_subtab app i sid).projects.map (fun p => p.insert_order) =
      app.projects.map (fun p => p.insert_order) := by
  by_cases hg : sid ∈ app.closing_ids
  · unfold close_subtab
    rw [if_pos hg]
  · cases hpi : app.projects[i]? with
    | none =>
      unfold close_subtab
      rw [if_neg hg, hpi]
    | some p0 =>
      by_cases hfs : (find_subtab p0 sid).isSome = true
      · have hspec := close_subtab_spec app i sid p0 hpi hg hfs
        refine insert_order_map_congr app _ i hspec.1 hspec.2.1 ?_
        intro p hp
        rw [hpi] at hp
        injection hp with hp
        subst hp
        exact ⟨closed_project p0 sid, hspec.2.2.1,
          (closed_project_fields p0 sid).2.2.2.2.1⟩
      · have hfn : (find_subtab p0 sid).isNone = true := by
          cases hfo : find_subtab p0 sid with
          | none => rfl
          | some st => rw [hfo] at hfs; exact absurd rfl hfs
        unfold close_subtab
        rw [if_neg hg, hpi]
        split
        · next heq => cases heq
        · next p heq =>
          injection heq with heq
          subst heq
          rw [if_pos hfn]

/-- No event ever rewrites a surviving project's `insert_order`: each
step leaves the `insert_order` sequence unchanged, appends the current
collection length, or deletes one entry. -/
theorem step_insert_order_cases (app : AppState) (op : Op) :
    ((step app op).projects.map (fun p => p.insert_order) =
        app.projects.map (fun p => p.insert_order)) ∨
    ((step app op).projects.map (fun p => p.insert_order) =
        app.projects.map (fun p => p.insert_order) ++ [(app.projects.length : Int)]) ∨
    (∃ j, (step app op).projects.map (fun p => p.insert_order) =
        remove_nth (app.projects.map (fun p => p.insert_order)) j) := by
  cases op with
  | opCreateProject name path b now =>
    exact Or.inr (Or.inl (create_project_io_map app name path b now))
  | opSelectProject i now =>
    exact Or.inl (on_project_selected_io_map app i now)
  | opAddSubtab i =>
    refine Or.inl ?_
    show (on_add_subtab_clicked app i).projects.map _ = _
    unfold on_add_subtab_clicked
    split
    · rfl
    · next p0 heq =>
      split
      · have hcl := clear_saved_spec app i
        have hcs := create_subtab_spec (clear_saved app i) i "Tab 1" p0.path
        have hmf := mark_first_tab_spec (create_subtab (clear_saved app i) i "Tab 1" p0.path) i
        refine insert_order_map_congr app _ i (by rw [hmf.1, hcs.1, hcl.1])
          (fun j hj => by rw [hmf.2.1 j hj, hcs.2.1 j hj, hcl.2.1 j hj]) ?_
        intro p hp
        rw [hmf.2.2, hcs.2.2, hcl.2.2, hp]
        exact ⟨_, rfl, rfl⟩
      · have hbc := bump_counter_spec app i
        have hcs := create_subtab_spec (bump_counter app i) i
          ("Tab " ++ toString (p0.subtab_counter + 1)) p0.path
        refine insert_order_map_congr app _ i (by rw [hcs.1, hbc.1])
          (fun j hj => by rw [hcs.2.1 j hj, hbc.2.1 j hj]) ?_
        intro p hp
        rw [hcs.2.2, hbc.2.2, hp]
        exact ⟨_, rfl, rfl⟩
  | opCloseSubtab i sid =>
    exact Or.inl (close_subtab_io_map app i sid)
  | opChildExited i sid =>
    refine Or.inl ?_
    show (on_terminal_child_exited app i sid).projects.map _ = _
    by_cases hg : sid ∈ app.closing_ids
    · unfold on_terminal_child_exited
      rw [if_pos hg]
    · have hstep : on_terminal_child_exited app i sid = close_subtab app i sid := by
        unfold on_terminal_child_exited
        rw [if_neg hg]
      rw [hstep]
      exact close_subtab_io_map app i sid
  | opRemoveProject now =>
    have hstep : step app (Op.opRemoveProject now) = on_remove_project_clicked app now := rfl
    rw [hstep]
    unfold on_remove_project_clicked
    split
    · exact Or.inl rfl
    · next i heq =>
      split
      · exact Or.inl rfl
      · split
        · exact Or.inr (Or.inr ⟨i, (map_remove_nth _ _ _)⟩)
        · refine Or.inr (Or.inr ⟨i, ?_⟩)
          rw [on_project_selected_io_map]
          exact map_remove_nth _ _ _
  | opSortClicked => exact Or.inl rfl

/-- Claim C5, amended: for every sequence of `create_project`
operations with no removals, the `insert_order` values are `0, 1, …` in
creation order — pairwise distinct, each new project ordered after all
previously created ones — and no event ever reassigns a surviving
project's `insert_order` (each step preserves the sequence, appends to
it, or deletes one entry).  After a removal, however, a later
`create_project` can duplicate an existing `insert_order` (see the
counterexample). -/
theorem insert_order_amended :
    (∀ specs : List (String × String × Bool × Int),
      (run fresh_app (specs.map (fun s =>
          Op.opCreateProject s.1 s.2.1 s.2.2.1 s.2.2.2))).projects.map
          (fun p => p.insert_order) =
        (List.range specs.length).map (fun k => (k : Int))) ∧
    (∀ (app : AppState) (op : Op),
      ((step app op).projects.map (fun p => p.insert_order) =
          app.projects.map (fun p => p.insert_order)) ∨
      ((step app op).projects.map (fun p => p.insert_order) =
          app.projects.map (fun p => p.insert_order) ++ [(app.projects.length : Int)]) ∨
      (∃ j, (step app op).projects.map (fun p => p.insert_order) =
          remove_nth (app.projects.map (fun p => p.insert_order)) j)) := by
  constructor
  · have hgen : ∀ (specs : List (String × String × Bool × Int)) (app : AppState),
        (run app (specs.map (fun s =>
            Op.opCreateProject s.1 s.2.1 s.2.2.1 s.2.2.2))).projects.map
            (fun p => p.insert_order) =
          app.projects.map (fun p => p.insert_order) ++
            (List.range' app.projects.length specs.length).map (fun k => (k : Int)) := by
      intro specs
      induction specs with
      | nil => intro app; simp [run]
      | cons s rest ih =>
        intro app
        show (run (create_project app s.1 s.2.1 s.2.2.1 s.2.2.2)
            (rest.map (fun s =>
              Op.opCreateProject s.1 s.2.1 s.2.2.1 s.2.2.2))).projects.map _ = _
        rw [ih (create_project app s.1 s.2.1 s.2.2.1 s.2.2.2), create_project_io_map]
        have hlen : (create_project app s.1 s.2.1 s.2.2.1 s.2.2.2).projects.length =
            app.projects.length + 1 := by
          cases hb : s.2.2.1
          · rw [create_project_false_projects]; simp
          · rw [create_project_true_projects]; simp
        rw [hlen, List.length_cons, List.range'_succ]
        simp
    intro specs
    have h := hgen specs fresh_app
    simpa [List.range_eq_range'] using h
  · exact step_insert_order_cases

/-! ### C7: last-tab close reverts, reactivation recreates "Tab 1" -/

/-- Claim C7: closing the only live subtab of a project (by user click
or child-process exit — both run the same `close_subtab`) leaves it
uninitialized with no live subtabs and no pending descriptors, and a
subsequent selection creates exactly one new default subtab named
"Tab 1" and re-marks it initialized. -/
theorem last_tab_close_reverts (app : AppState) (i sid : Nat) (p0 : Project)
    (st : SubTab) (now : Int)
    (hp : app.projects[i]? = some p0) (hsub : p0.subtabs = [st]) (hid : st.id = sid)
    (hsaved : p0.saved_subtabs = []) (hguard : sid ∉ app.closing_ids) :
    (∃ p1, (close_subtab app i sid).projects[i]? = some p1 ∧
      p1.initialized = false ∧ p1.subtabs = [] ∧ p1.saved_subtabs = []) ∧
    on_terminal_child_exited app i sid = close_subtab app i sid ∧
    (∃ p2, (on_project_selected (close_subtab app i sid) i now).projects[i]? = some p2 ∧
      p2.initialized = true ∧ p2.subtabs.map (fun s => SubTab.name s) = ["Tab 1"]) := by
  have hfind : (find_subtab p0 sid).isSome = true := by
    simp [find_subtab, hsub, hid]
  have hspec := close_subtab_spec app i sid p0 hp hguard hfind
  obtain ⟨hf1, hf2, _, _, _, _, hf7, _⟩ := closed_project_fields p0 sid
  have hlen1 : p0.subtabs.length = 1 := by rw [hsub]; rfl
  have hsub1 : (closed_project p0 sid).subtabs = [] := by
    rw [hf1, hsub]
    simp [remove_first_subtab, hid]
  have hini1 : (closed_project p0 sid).initialized = false := hf7 hlen1
  have hsv1 : (closed_project p0 sid).saved_subtabs = [] := by rw [hf2, hsaved]
  refine ⟨⟨closed_project p0 sid, hspec.2.2.1, hini1, hsub1, hsv1⟩, ?_, ?_⟩
  · unfold on_terminal_child_exited
    rw [if_neg hguard]
  · have hsel := on_project_selected_spec (close_subtab app i sid) i now
      (closed_project p0 sid) hspec.2.2.1
    obtain ⟨q, hq, hbr⟩ := hsel.2.2
    rcases hbr with ⟨hcon, _⟩ | ⟨_, _, rfl⟩ | ⟨_, hcon, _⟩
    · rw [hini1] at hcon
      cases hcon
    · refine ⟨_, hq, rfl, ?_⟩
      rw [hsub1]
      rfl
    · exact absurd hsv1 hcon

/-- Witness for C7 at the concrete one-tab project. -/
theorem last_tab_close_reverts_witness :
    (∃ p1, (close_subtab c7_witness_app 0 0).projects[0]? = some p1 ∧
      p1.initialized = false ∧ p1.subtabs = [] ∧ p1.saved_subtabs = []) ∧
    on_terminal_child_exited c7_witness_app 0 0 = close_subtab c7_witness_app 0 0 ∧
    (∃ p2, (on_project_selected (close_subtab c7_witness_app 0 0) 0 42).projects[0]? =
        some p2 ∧
      p2.initialized = true ∧ p2.subtabs.map (fun s => SubTab.name s) = ["Tab 1"]) :=
  last_tab_close_reverts c7_witness_app 0 0 c2_witness_project ⟨0, "Tab 1", none⟩ 42
    (by decide) (by decide) (by decide) (by decide) (by decide)

/-! ### C8: idempotent close -/

theorem close_subtab_guarded (app : AppState) (i sid : Nat)
    (hg : sid ∈ app.closing_ids) : close_subtab app i sid = app := by
  unfold close_subtab
  rw [if_pos hg]

/-- Claim C8: a second close of the same subtab — by user click or by
the child-exited handler — while or after it is already closing is a
no-op: overall exactly one list removal happens, the subtab is freed
once, and the session is persisted once, not twice. -/
theorem close_subtab_idempotent (app : AppState) (i sid : Nat) (p0 : Project)
    (hp : app.projects[i]? = some p0) (hguard : sid ∉ app.closing_ids)
    (hfind : (find_subtab p0 sid).isSome = true) :
    close_subtab (close_subtab app i sid) i sid = close_subtab app i sid ∧
    on_terminal_child_exited (close_subtab app i sid) i sid = close_subtab app i sid ∧
    (close_subtab app i sid).saves = app.saves + 1 ∧
    (close_subtab app i sid).freed_ids = app.freed_ids ++ [sid] ∧
    (∃ p1, (close_subtab app i sid).projects[i]? = some p1 ∧
      p1.subtabs.length + 1 = p0.subtabs.length) := by
  have hspec := close_subtab_spec app i sid p0 hp hguard hfind
  have hmem : sid ∈ (close_subtab app i sid).closing_ids := by
    rw [hspec.2.2.2.2.1]
    simp
  refine ⟨close_subtab_guarded _ i sid hmem, ?_, hspec.2.2.2.1, hspec.2.2.2.2.2.1, ?_⟩
  · unfold on_terminal_child_exited
    rw [if_pos hmem]
  · refine ⟨closed_project p0 sid, hspec.2.2.1, ?_⟩
    rw [(closed_project_fields p0 sid).1]
    exact remove_first_subtab_length p0.subtabs sid
      ((find_subtab_isSome_iff p0 sid).mp hfind)

/-- Witness for C8 at the concrete one-tab project. -/
theorem close_subtab_idempotent_witness :
    close_subtab (close_subtab c7_witness_app 0 0) 0 0 = close_subtab c7_witness_app 0 0 ∧
    on_terminal_child_exited (close_subtab c7_witness_app 0 0) 0 0 =
      close_subtab c7_witness_app 0 0 ∧
    (close_subtab c7_witness_app 0 0).saves = c7_witness_app.saves + 1 ∧
    (close_subtab c7_witness_app 0 0).freed_ids = c7_witness_app.freed_ids ++ [0] ∧
    (∃ p1, (close_subtab c7_witness_app 0 0).projects[0]? = some p1 ∧
      p1.subtabs.length + 1 = c2_witness_project.subtabs.length) :=
  close_subtab_idempotent c7_witness_app 0 0 c2_witness_project
    (by decide) (by decide) (by decide)

end Gmux
